import Mathlib

/-!
Verification of the oasis bridge runtime module.

This development embeds the bridge module (module-bridge/src/lib.rs and
module-bridge/src/types.rs) as an executable state machine in Lean and
proves the specified invariants about it.

Modelling conventions:
* `u64` sequence counters are modelled as `Nat` (they are only ever
  incremented by one starting from zero, so overflow is unreachable in
  any finite trace).
* The `index as u16` casts in the handler code are modelled as `% 65536`.
* Addresses, public keys, denominations, remote addresses and signatures
  are opaque byte strings in the source and are modelled as `Nat`.
* `Address::from_pk` is an external hash; it is modelled as an arbitrary
  function `apk` carried in the environment.
* `OperationId` is the collision-resistant hash of the canonical CBOR
  encoding of an `Operation`; it is modelled by the `Operation` value
  itself (hashing is assumed injective).
* BTreeMap / balance maps are modelled as association lists with
  replace-or-append insertion and filtering deletion.
-/

namespace OasisBridge

/-- Association-list lookup: first binding of the key, as in a map. -/
def alGet {K V : Type} [DecidableEq K] : List (K × V) → K → Option V
  | [], _ => none
  | p :: rest, k => if p.1 = k then some p.2 else alGet rest k

/-- Association-list insert: replace the first binding or append a new one. -/
def alPut {K V : Type} [DecidableEq K] : List (K × V) → K → V → List (K × V)
  | [], k, v => [(k, v)]
  | p :: rest, k, v => if p.1 = k then (k, v) :: rest else p :: alPut rest k v

/-- Association-list delete: remove every binding of the key. -/
def alDel {K V : Type} [DecidableEq K] (m : List (K × V)) (k : K) : List (K × V) :=
  m.filter (fun p => p.1 ≠ k)

/-- Executable list membership used to model `contains` / `iter().any` checks. -/
def hasElem {α : Type} [DecidableEq α] : List α → α → Bool
  | [], _ => false
  | x :: xs, a => if x = a then true else hasElem xs a

theorem alGet_alPut_same {K V : Type} [DecidableEq K] (m : List (K × V)) (k : K) (v : V) :
    alGet (alPut m k v) k = some v := by
  induction m with
  | nil => simp [alGet, alPut]
  | cons p rest ih =>
    by_cases h : p.1 = k <;> simp [alGet, alPut, h, ih]

theorem alGet_alPut_ne {K V : Type} [DecidableEq K] (m : List (K × V)) (k k' : K) (v : V)
    (h : k ≠ k') : alGet (alPut m k v) k' = alGet m k' := by
  induction m with
  | nil => simp [alGet, alPut, h]
  | cons p rest ih =>
    by_cases hp : p.1 = k
    · rw [alPut, if_pos hp, alGet, alGet, if_neg h, hp, if_neg h]
    · rw [alPut, if_neg hp, alGet, alGet]
      by_cases hp' : p.1 = k'
      · rw [if_pos hp', if_pos hp']
      · rw [if_neg hp', if_neg hp', ih]

theorem alDel_cons {K V : Type} [DecidableEq K] (p : K × V) (rest : List (K × V)) (k : K) :
    alDel (p :: rest) k = if p.1 = k then alDel rest k else p :: alDel rest k := by
  by_cases h : p.1 = k <;> simp [alDel, List.filter_cons, h]

theorem alGet_alDel_same {K V : Type} [DecidableEq K] (m : List (K × V)) (k : K) :
    alGet (alDel m k) k = none := by
  induction m with
  | nil => simp [alGet, alDel]
  | cons p rest ih =>
    rw [alDel_cons]
    by_cases h : p.1 = k
    · rw [if_pos h]; exact ih
    · rw [if_neg h, alGet, if_neg h]; exact ih

theorem alGet_alDel_ne {K V : Type} [DecidableEq K] (m : List (K × V)) (k k' : K)
    (h : k ≠ k') : alGet (alDel m k) k' = alGet m k' := by
  induction m with
  | nil => simp [alGet, alDel]
  | cons p rest ih =>
    rw [alDel_cons]
    by_cases hp : p.1 = k
    · have hne : p.1 ≠ k' := by rw [hp]; exact h
      rw [if_pos hp, alGet, if_neg hne]; exact ih
    · rw [if_neg hp, alGet, alGet]
      by_cases hp' : p.1 = k'
      · rw [if_pos hp', if_pos hp']
      · rw [if_neg hp', if_neg hp', ih]

theorem hasElem_iff_mem {α : Type} [DecidableEq α] (xs : List α) (a : α) :
    hasElem xs a = true ↔ a ∈ xs := by
  induction xs with
  | nil => simp [hasElem]
  | cons x rest ih =>
    by_cases h : x = a <;> simp [hasElem, h, ih]
    exact fun hc => (h hc.symm).elim

/-- Local addresses (opaque in the source). -/
abbrev Address := Nat

/-- Witness public keys (opaque in the source). -/
abbrev PublicKey := Nat

/-- Token denomination identifiers (opaque byte strings in the source). -/
abbrev Denomination := Nat

/-- Remote denomination identifiers (opaque byte strings, types.rs). -/
abbrev RemoteDenomination := Nat

/-- Remote 20-byte addresses (opaque, types.rs). -/
abbrev RemoteAddress := Nat

/-- Witness signatures (opaque, external crypto). -/
abbrev Signature := Nat

/-- `token::BaseUnits`: an amount together with its denomination. -/
structure BaseUnits where
  amount : Nat
  denomination : Denomination
deriving DecidableEq, Repr

/-- `types::Lock` call body. -/
structure Lock where
  target : RemoteAddress
  amount : BaseUnits
deriving DecidableEq, Repr

/-- `types::Witness` call body. -/
structure Witness where
  id : Nat
  signature : Signature
deriving DecidableEq, Repr

/-- `types::Release` call body. -/
structure Release where
  id : Nat
  target : Address
  amount : BaseUnits
deriving DecidableEq, Repr

/-- `types::Operation`: the payload of a signature-collection slot. -/
inductive Operation where
  | lock : Lock → Operation
  | release : Release → Operation
deriving DecidableEq, Repr

/-- `types::WitnessSignatures`: one outgoing slot / one incoming bucket. -/
structure WitnessSignatures where
  id : Nat
  op : Operation
  witnesses : List Nat
  signatures : List Signature
deriving DecidableEq, Repr

/-- `WitnessSignatures::new`: a fresh slot with empty lists (types.rs). -/
def WitnessSignatures.new (id : Nat) (op : Operation) : WitnessSignatures :=
  ⟨id, op, [], []⟩

/-- `types::IncomingWitnessSignatures`: an incoming slot, bucketed by operation.
The map key stands for the `OperationId` hash of the bucket's operation. -/
structure IncomingWitnessSignatures where
  ops : List (Operation × WitnessSignatures)
  witnesses : List Nat
deriving DecidableEq, Repr

/-- The `Default` instance for `IncomingWitnessSignatures`: empty slot. -/
def emptyIncoming : IncomingWitnessSignatures := ⟨[], []⟩

/-- `Parameters` of the bridge module (lib.rs). -/
structure Parameters where
  witnesses : List PublicKey
  threshold : Nat
  local_denominations : List Denomination
  remote_denominations : List (Denomination × RemoteDenomination)
deriving DecidableEq, Repr

/-- `ParameterValidationError` (lib.rs). -/
inductive ParameterValidationError where
  | TooManyWitnesses
  | DenominationLocalAndRemote
deriving DecidableEq, Repr

/-- `Parameters::validate_basic` (lib.rs): reject more than `u16::MAX`
witnesses, and any denomination that is both local and remote. -/
def validate_basic (p : Parameters) : Except ParameterValidationError Unit :=
  if p.witnesses.length > 65535 then
    .error .TooManyWitnesses
  else if p.remote_denominations.any (fun rd => hasElem p.local_denominations rd.1) then
    .error .DenominationLocalAndRemote
  else
    .ok ()

/-- Module `Error` type (lib.rs). -/
inductive Error where
  | InvalidArgument
  | NotAuthorized
  | InvalidSequenceNumber
  | InsufficientBalance
  | AlreadySubmittedSignature
  | UnsupportedDenomination
deriving DecidableEq, Repr

/-- Module events (lib.rs). -/
inductive Event where
  | lock : Nat → Address → RemoteAddress → BaseUnits → Event
  | release : Nat → Address → BaseUnits → Event
  | witnessesSigned : WitnessSignatures → Event
deriving DecidableEq, Repr

/-- `ADDRESS_LOCKED_FUNDS`: the custody address, a fixed value derived
from the module name and the label "locked-funds" (lib.rs). -/
def ADDRESS_LOCKED_FUNDS : Address := 0xB51D6E

/-- Balance ledger of the accounts collaborator: balance per (address,
denomination), defaulting to zero. -/
abbrev Balances := List ((Address × Denomination) × Nat)

/-- Balance read with default zero. -/
def getBal (b : Balances) (a : Address) (d : Denomination) : Nat :=
  (alGet b (a, d)).getD 0

/-- Balance write. -/
def setBal (b : Balances) (a : Address) (d : Denomination) (v : Nat) : Balances :=
  alPut b (a, d) v

/-- Debit `src` and credit `dst` (no balance check; used under a guard). -/
def moveBal (b : Balances) (src dst : Address) (amt : BaseUnits) : Balances :=
  let b1 := setBal b src amt.denomination (getBal b src amt.denomination - amt.amount)
  setBal b1 dst amt.denomination (getBal b1 dst amt.denomination + amt.amount)

/-- Modelled from the spec: `transfer(from, to, amount)` of the accounts
collaborator (its source is outside this repository). It moves `amount`
between balances and fails with `InsufficientBalance` on underflow. -/
def transfer (b : Balances) (src dst : Address) (amt : BaseUnits) : Option Balances :=
  if amt.amount ≤ getBal b src amt.denomination then some (moveBal b src dst amt) else none

/-- Modelled from the spec: `mint(to, amount)` of the accounts
collaborator: creates `amount` in `dst`'s balance. -/
def mint (b : Balances) (dst : Address) (amt : BaseUnits) : Balances :=
  setBal b dst amt.denomination (getBal b dst amt.denomination + amt.amount)

/-- Modelled from the spec: `burn(from, amount)` of the accounts
collaborator: destroys `amount` from `src`'s balance, failing with
`InsufficientBalance` on underflow. -/
def burn (b : Balances) (src : Address) (amt : BaseUnits) : Option Balances :=
  if amt.amount ≤ getBal b src amt.denomination then
    some (setBal b src amt.denomination (getBal b src amt.denomination - amt.amount))
  else none

/-- Persistent module state: the balance ledger of the accounts
collaborator plus the bridge module's own storage keys (lib.rs `state`). -/
structure State where
  balances : Balances
  nextOutSeq : Nat
  nextInSeq : Nat
  outSlots : List (Nat × WitnessSignatures)
  inSlots : List (Nat × IncomingWitnessSignatures)
deriving DecidableEq, Repr

/-- Genesis state: counters and slot maps absent (read as zero / empty). -/
def genesis (b0 : Balances) : State :=
  { balances := b0, nextOutSeq := 0, nextInSeq := 0, outSlots := [], inSlots := [] }

/-- The execution environment: genesis parameters and the external
`Address::from_pk` derivation. -/
structure Env where
  params : Parameters
  apk : PublicKey → Address

/-- Result of one handler invocation: the call result, the raw state as
left by the handler body (before the host commits or discards it), and
the emitted events. -/
structure TxOut (α : Type) where
  res : Except Error α
  state : State
  events : List Event

/-- `Module::ensure_local_or_remote` (lib.rs): classify a denomination as
local (`none`), remote (`some r`) or unsupported (error). -/
def ensure_local_or_remote (params : Parameters) (d : Denomination) :
    Except Error (Option RemoteDenomination) :=
  if hasElem params.local_denominations d then .ok none
  else
    match alGet params.remote_denominations d with
    | some r => .ok (some r)
    | none => .error .UnsupportedDenomination

/-- Linear scan of the witness list for the caller's address, returning
the ordinal position (lib.rs `witnesses.iter().enumerate().find`). -/
def findWitnessAux (apk : PublicKey → Address) (caller : Address) :
    List PublicKey → Nat → Option Nat
  | [], _ => none
  | pk :: rest, i => if apk pk = caller then some i else findWitnessAux apk caller rest (i + 1)

/-- Resolve a caller address to its witness index. -/
def findWitnessIndex (apk : PublicKey → Address) (ws : List PublicKey) (caller : Address) :
    Option Nat :=
  findWitnessAux apk caller ws 0

/-- `Module::tx_lock` (lib.rs). -/
def tx_lock (env : Env) (caller : Address) (check : Bool) (body : Lock) (s : State) :
    TxOut Nat :=
  match ensure_local_or_remote env.params body.amount.denomination with
  | .error e => ⟨.error e, s, []⟩
  | .ok remote =>
    if check then ⟨.ok 0, s, []⟩
    else
      match transfer s.balances caller ADDRESS_LOCKED_FUNDS body.amount with
      | none => ⟨.error .InsufficientBalance, s, []⟩
      | some bal1 =>
        let id := s.nextOutSeq
        let s1 : State :=
          { s with
            balances := bal1
            nextOutSeq := id + 1
            outSlots := alPut s.outSlots id (WitnessSignatures.new id (.lock body)) }
        if remote.isSome then
          match burn s1.balances ADDRESS_LOCKED_FUNDS body.amount with
          | none => ⟨.error .InsufficientBalance, s1, []⟩
          | some bal2 =>
            ⟨.ok id, { s1 with balances := bal2 },
              [.lock id caller body.target body.amount]⟩
        else
          ⟨.ok id, s1, [.lock id caller body.target body.amount]⟩

/-- `Module::tx_witness` (lib.rs). -/
def tx_witness (env : Env) (caller : Address) (check : Bool) (body : Witness) (s : State) :
    TxOut Unit :=
  if check then ⟨.ok (), s, []⟩
  else
    match findWitnessIndex env.apk env.params.witnesses caller with
    | none => ⟨.error .NotAuthorized, s, []⟩
    | some idx =>
      match alGet s.outSlots body.id with
      | none => ⟨.error .InvalidSequenceNumber, s, []⟩
      | some info =>
        if hasElem info.witnesses idx then ⟨.error .AlreadySubmittedSignature, s, []⟩
        else
          let info' : WitnessSignatures :=
            { info with
              witnesses := info.witnesses ++ [idx % 65536]
              signatures := info.signatures ++ [body.signature] }
          if info'.witnesses.length < env.params.threshold then
            ⟨.ok (), { s with outSlots := alPut s.outSlots body.id info' }, []⟩
          else
            ⟨.ok (), { s with outSlots := alDel s.outSlots body.id },
              [.witnessesSigned info']⟩

/-- `Module::tx_release` (lib.rs). -/
def tx_release (env : Env) (caller : Address) (check : Bool) (body : Release) (s : State) :
    TxOut Unit :=
  match ensure_local_or_remote env.params body.amount.denomination with
  | .error e => ⟨.error e, s, []⟩
  | .ok remote =>
    if check then ⟨.ok (), s, []⟩
    else
      match findWitnessIndex env.apk env.params.witnesses caller with
      | none => ⟨.error .NotAuthorized, s, []⟩
      | some idx0 =>
        let idx := idx0 % 65536
        if body.id ≠ s.nextInSeq then ⟨.error .InvalidSequenceNumber, s, []⟩
        else
          let info := (alGet s.inSlots body.id).getD emptyIncoming
          if hasElem info.witnesses idx then ⟨.error .AlreadySubmittedSignature, s, []⟩
          else
            let op := Operation.release body
            let bucket0 := (alGet info.ops op).getD (WitnessSignatures.new body.id op)
            let bucket := { bucket0 with witnesses := bucket0.witnesses ++ [idx] }
            let info' : IncomingWitnessSignatures :=
              { ops := alPut info.ops op bucket
                witnesses := info.witnesses ++ [idx] }
            if bucket.witnesses.length < env.params.threshold then
              ⟨.ok (), { s with inSlots := alPut s.inSlots body.id info' }, []⟩
            else
              let s1 : State :=
                { s with
                  inSlots := alDel s.inSlots body.id
                  nextInSeq := body.id + 1 }
              let bal1 :=
                if remote.isSome then mint s1.balances ADDRESS_LOCKED_FUNDS body.amount
                else s1.balances
              match transfer bal1 ADDRESS_LOCKED_FUNDS body.target body.amount with
              | none => ⟨.error .InsufficientBalance, { s1 with balances := bal1 }, []⟩
              | some bal2 =>
                ⟨.ok (), { s1 with balances := bal2 },
                  [.release body.id body.target body.amount]⟩

/-- A transaction submitted to the module: caller, check-only flag, body. -/
inductive Call where
  | lock : Address → Bool → Lock → Call
  | witness : Address → Bool → Witness → Call
  | release : Address → Bool → Release → Call
deriving DecidableEq, Repr

/-- One committed transaction: `some (state, events)` when the handler
succeeds (the host commits the raw state), `none` when it fails (the
host discards every mutation). -/
def step (env : Env) (s : State) : Call → Option (State × List Event)
  | .lock caller check body =>
    let o := tx_lock env caller check body s
    match o.res with
    | .ok _ => some (o.state, o.events)
    | .error _ => none
  | .witness caller check body =>
    let o := tx_witness env caller check body s
    match o.res with
    | .ok _ => some (o.state, o.events)
    | .error _ => none
  | .release caller check body =>
    let o := tx_release env caller check body s
    match o.res with
    | .ok _ => some (o.state, o.events)
    | .error _ => none

/-- Run a sequence of calls, requiring every one to succeed, and collect
all emitted events. -/
def run (env : Env) (s : State) : List Call → Option (State × List Event)
  | [] => some (s, [])
  | c :: cs =>
    match step env s c with
    | none => none
    | some (s', evs) =>
      match run env s' cs with
      | none => none
      | some (t, evs') => some (t, evs ++ evs')

/-- The outgoing slot as written by a non-finalizing Witness call. -/
def witUpdated (info : WitnessSignatures) (idx : Nat) (sig : Signature) :
    WitnessSignatures :=
  { info with
    witnesses := info.witnesses ++ [idx % 65536]
    signatures := info.signatures ++ [sig] }

/-- The bucket of an incoming slot that a Release call for `body` lands in
(`ops.entry(op_id).or_insert_with(...)` in the handler). -/
def releaseBucket (s : State) (body : Release) : WitnessSignatures :=
  (alGet ((alGet s.inSlots body.id).getD emptyIncoming).ops (Operation.release body)).getD
    (WitnessSignatures.new body.id (Operation.release body))

/-- The incoming slot as written by a non-finalizing Release call. -/
def relUpdated (s : State) (body : Release) (idx : Nat) : IncomingWitnessSignatures :=
  { ops :=
      alPut ((alGet s.inSlots body.id).getD emptyIncoming).ops (Operation.release body)
        { releaseBucket s body with
          witnesses := (releaseBucket s body).witnesses ++ [idx % 65536] }
    witnesses := ((alGet s.inSlots body.id).getD emptyIncoming).witnesses ++ [idx % 65536] }

/-- Number of `WitnessesSigned` events in a list that carry the given id. -/
def wsCount (evs : List Event) (id : Nat) : Nat :=
  (evs.filter (fun e =>
    match e with
    | .witnessesSigned info => decide (info.id = id)
    | _ => false)).length

/-- All witness indices collected across the buckets of an incoming slot. -/
def joinWits (ops : List (Operation × WitnessSignatures)) : List Nat :=
  (ops.map (fun p => p.2.witnesses)).flatten

/-- An incoming slot holding a single bucket for the release `body` with
witness index list `js` (the shape built by repeated identical Release
calls on a fresh slot). -/
def soloSlot (body : Release) (js : List Nat) : IncomingWitnessSignatures :=
  ⟨[(Operation.release body, ⟨body.id, Operation.release body, js, []⟩)], js⟩

/-! ### Concrete instances used for witnesses and counterexamples -/

/-- Two witnesses (threshold 2), one local and one remote denomination. -/
def envA : Env := ⟨⟨[10, 11], 2, [1], [(2, 77)]⟩, fun pk => pk⟩

/-- One witness (threshold 1), one local and one remote denomination. -/
def envB : Env := ⟨⟨[10], 1, [1], [(2, 77)]⟩, fun pk => pk⟩

/-- A state holding an outgoing slot and an incoming slot that already
record witness index 0. -/
def sDup : State :=
  { balances := []
    nextOutSeq := 1
    nextInSeq := 0
    outSlots := [(0, ⟨0, .lock ⟨33, ⟨5, 1⟩⟩, [0], [900]⟩)]
    inSlots := [(0, soloSlot ⟨0, 5, ⟨5, 1⟩⟩ [0])] }

/-! ### Map and balance lemmas -/

theorem alDel_alPut {K V : Type} [DecidableEq K] (m : List (K × V)) (k : K) (v : V) :
    alDel (alPut m k v) k = alDel m k := by
  induction m with
  | nil => simp [alPut, alDel]
  | cons p rest ih =>
    by_cases h : p.1 = k
    · rw [alPut, if_pos h, alDel_cons, alDel_cons, if_pos rfl, if_pos h]
    · rw [alPut, if_neg h, alDel_cons, alDel_cons, if_neg h, if_neg h, ih]

theorem alGet_mem {K V : Type} [DecidableEq K] (m : List (K × V)) (k : K) (v : V)
    (h : alGet m k = some v) : (k, v) ∈ m := by
  induction m with
  | nil => simp [alGet] at h
  | cons p rest ih =>
    rw [alGet] at h
    by_cases hp : p.1 = k
    · rw [if_pos hp] at h
      obtain ⟨a, w⟩ := p
      simp only at hp
      injection h with h2
      subst hp
      subst h2
      exact List.mem_cons_self _ _
    · rw [if_neg hp] at h
      exact List.mem_cons_of_mem _ (ih h)

theorem mem_alPut {K V : Type} [DecidableEq K] (m : List (K × V)) (k : K) (v : V) (p : K × V)
    (h : p ∈ alPut m k v) : p ∈ m ∨ p = (k, v) := by
  induction m with
  | nil => simp [alPut] at h; right; exact h
  | cons q rest ih =>
    by_cases hq : q.1 = k
    · rw [alPut, if_pos hq] at h
      rcases List.mem_cons.mp h with h1 | h1
      · right; exact h1
      · left; exact List.mem_cons_of_mem _ h1
    · rw [alPut, if_neg hq] at h
      rcases List.mem_cons.mp h with h1 | h1
      · left; exact h1 ▸ List.mem_cons_self _ _
      · rcases ih h1 with h2 | h2
        · left; exact List.mem_cons_of_mem _ h2
        · right; exact h2

theorem getBal_setBal (b : Balances) (a : Address) (d : Denomination) (v : Nat)
    (x : Address) (e : Denomination) :
    getBal (setBal b a d v) x e = if a = x ∧ d = e then v else getBal b x e := by
  by_cases h : a = x ∧ d = e
  · rw [if_pos h, getBal, setBal, h.1, h.2, alGet_alPut_same]
    rfl
  · have hne : (a, d) ≠ (x, e) := by
      intro hc
      exact h ⟨congrArg Prod.fst hc, congrArg Prod.snd hc⟩
    rw [if_neg h, getBal, setBal, alGet_alPut_ne _ _ _ _ hne, getBal]

theorem getBal_moveBal (b : Balances) (src dst : Address) (amt : BaseUnits)
    (x : Address) (e : Denomination) :
    getBal (moveBal b src dst amt) x e =
      if e = amt.denomination then
        (if x = dst then
          (if src = dst then
            getBal b src amt.denomination - amt.amount + amt.amount
          else getBal b dst amt.denomination + amt.amount)
        else if x = src then getBal b src amt.denomination - amt.amount
        else getBal b x e)
      else getBal b x e := by
  rw [moveBal]
  simp only [getBal_setBal]
  by_cases he : e = amt.denomination
  · by_cases hd : x = dst
    · rw [if_pos ⟨hd.symm, he.symm⟩, if_pos he, if_pos hd]
      by_cases hs : src = dst
      · rw [if_pos ⟨hs, trivial⟩, if_pos hs]
      · rw [if_neg (fun hc => hs hc.1), if_neg hs]
    · rw [if_neg (fun hc => hd hc.1.symm), if_pos he, if_neg hd]
      by_cases hx : x = src
      · rw [if_pos ⟨hx.symm, he.symm⟩, if_pos hx]
      · rw [if_neg (fun hc => hx hc.1.symm), if_neg hx, he]
  · rw [if_neg (fun hc => he hc.2.symm), if_neg (fun hc => he hc.2.symm), if_neg he]

theorem getBal_mint (b : Balances) (dst : Address) (amt : BaseUnits)
    (x : Address) (e : Denomination) :
    getBal (mint b dst amt) x e =
      if x = dst ∧ e = amt.denomination then getBal b x e + amt.amount
      else getBal b x e := by
  rw [mint, getBal_setBal]
  by_cases h : x = dst ∧ e = amt.denomination
  · simp [h.1, h.2]
  · have : ¬ (dst = x ∧ amt.denomination = e) := by
      intro hc; exact h ⟨hc.1.symm, hc.2.symm⟩
    rw [if_neg this, if_neg h]

theorem transfer_eq_some (b : Balances) (src dst : Address) (amt : BaseUnits) (b' : Balances)
    (h : transfer b src dst amt = some b') :
    amt.amount ≤ getBal b src amt.denomination ∧ b' = moveBal b src dst amt := by
  rw [transfer] at h
  by_cases hle : amt.amount ≤ getBal b src amt.denomination
  · rw [if_pos hle] at h
    exact ⟨hle, (Option.some.injEq _ _ ▸ h).symm⟩
  · rw [if_neg hle] at h
    exact absurd h (by simp)

theorem burn_eq_some (b : Balances) (src : Address) (amt : BaseUnits) (b' : Balances)
    (h : burn b src amt = some b') :
    amt.amount ≤ getBal b src amt.denomination ∧
      ∀ x e, getBal b' x e =
        if x = src ∧ e = amt.denomination then getBal b x e - amt.amount
        else getBal b x e := by
  rw [burn] at h
  by_cases hle : amt.amount ≤ getBal b src amt.denomination
  · rw [if_pos hle] at h
    refine ⟨hle, fun x e => ?_⟩
    injection h with h2
    subst h2
    rw [getBal_setBal]
    by_cases hc : x = src ∧ e = amt.denomination
    · simp [hc.1, hc.2]
    · have : ¬ (src = x ∧ amt.denomination = e) := by
        intro hp; exact hc ⟨hp.1.symm, hp.2.symm⟩
      rw [if_neg this, if_neg hc]
  · rw [if_neg hle] at h
    exact absurd h (by simp)

theorem findWitnessAux_bounds (apk : PublicKey → Address) (caller : Address) :
    ∀ (ws : List PublicKey) (k i : Nat),
      findWitnessAux apk caller ws k = some i → k ≤ i ∧ i < k + ws.length := by
  intro ws
  induction ws with
  | nil => intro k i h; simp [findWitnessAux] at h
  | cons pk rest ih =>
    intro k i h
    rw [findWitnessAux] at h
    by_cases hp : apk pk = caller
    · rw [if_pos hp] at h
      cases h
      simp
    · rw [if_neg hp] at h
      have := ih (k + 1) i h
      constructor
      · omega
      · simp only [List.length_cons]
        omega

theorem findWitnessIndex_lt (apk : PublicKey → Address) (ws : List PublicKey)
    (caller : Address) (i : Nat) (h : findWitnessIndex apk ws caller = some i) :
    i < ws.length := by
  have := findWitnessAux_bounds apk caller ws 0 i h
  omega

/-! ### Characterization of successful transactions -/

theorem step_lock_cases (env : Env) (s : State) (caller : Address) (ck : Bool) (body : Lock)
    (s' : State) (evs : List Event)
    (h : step env s (Call.lock caller ck body) = some (s', evs)) :
    (ck = true ∧ s' = s ∧ evs = []) ∨
    (ck = false ∧ ∃ remote bal1,
      ensure_local_or_remote env.params body.amount.denomination = .ok remote ∧
      transfer s.balances caller ADDRESS_LOCKED_FUNDS body.amount = some bal1 ∧
      evs = [.lock s.nextOutSeq caller body.target body.amount] ∧
      s'.nextOutSeq = s.nextOutSeq + 1 ∧
      s'.nextInSeq = s.nextInSeq ∧
      s'.inSlots = s.inSlots ∧
      s'.outSlots =
        alPut s.outSlots s.nextOutSeq
          (WitnessSignatures.new s.nextOutSeq (.lock body)) ∧
      ((remote = none ∧ s'.balances = bal1) ∨
       (∃ r, remote = some r ∧
        burn bal1 ADDRESS_LOCKED_FUNDS body.amount = some s'.balances))) := by
  rw [step] at h
  simp only [tx_lock] at h
  rcases hens : ensure_local_or_remote env.params body.amount.denomination with e | remote <;>
    rw [hens] at h
  · simp at h
  · rcases ck with _ | _
    · simp only [Bool.false_eq_true, if_false] at h
      rcases htr : transfer s.balances caller ADDRESS_LOCKED_FUNDS body.amount with _ | bal1 <;>
        rw [htr] at h
      · simp at h
      · rcases remote with _ | r
        · simp only [Option.isSome_none, Bool.false_eq_true, if_false] at h
          simp at h
          obtain ⟨hs, hevs⟩ := h
          subst hs
          subst hevs
          exact Or.inr ⟨rfl, none, bal1, rfl, rfl, rfl, rfl, rfl, rfl, rfl,
            Or.inl ⟨rfl, rfl⟩⟩
        · simp only [Option.isSome_some, if_true] at h
          rcases hb : burn bal1 ADDRESS_LOCKED_FUNDS body.amount with _ | bal2 <;>
            rw [hb] at h
          · simp at h
          · simp at h
            obtain ⟨hs, hevs⟩ := h
            subst hs
            subst hevs
            exact Or.inr ⟨rfl, some r, bal1, rfl, rfl, rfl, rfl, rfl, rfl, rfl,
              Or.inr ⟨r, rfl, by first | rfl | rw [hb]⟩⟩
    · simp at h
      obtain ⟨hs, hevs⟩ := h
      subst hs
      subst hevs
      exact Or.inl ⟨rfl, rfl, rfl⟩

theorem step_witness_cases (env : Env) (s : State) (caller : Address) (ck : Bool)
    (body : Witness) (s' : State) (evs : List Event)
    (h : step env s (Call.witness caller ck body) = some (s', evs)) :
    (ck = true ∧ s' = s ∧ evs = []) ∨
    (ck = false ∧ ∃ idx info,
      findWitnessIndex env.apk env.params.witnesses caller = some idx ∧
      alGet s.outSlots body.id = some info ∧
      hasElem info.witnesses idx = false ∧
      s'.balances = s.balances ∧
      s'.nextOutSeq = s.nextOutSeq ∧
      s'.nextInSeq = s.nextInSeq ∧
      s'.inSlots = s.inSlots ∧
      (((witUpdated info idx body.signature).witnesses.length < env.params.threshold ∧
        s'.outSlots = alPut s.outSlots body.id (witUpdated info idx body.signature) ∧
        evs = []) ∨
       (env.params.threshold ≤ (witUpdated info idx body.signature).witnesses.length ∧
        s'.outSlots = alDel s.outSlots body.id ∧
        evs = [.witnessesSigned (witUpdated info idx body.signature)]))) := by
  rw [step] at h
  simp only [tx_witness] at h
  rcases ck with _ | _
  · simp only [Bool.false_eq_true, if_false] at h
    rcases hf : findWitnessIndex env.apk env.params.witnesses caller with _ | idx <;>
      rw [hf] at h
    · simp at h
    · rcases hsl : alGet s.outSlots body.id with _ | info <;> rw [hsl] at h
      · simp at h
      · rcases hdup : hasElem info.witnesses idx with _ | _ <;>
          simp only [hdup, Bool.false_eq_true, if_false] at h
        · by_cases hth :
            (witUpdated info idx body.signature).witnesses.length < env.params.threshold
          · rw [if_pos (by simpa [witUpdated] using hth)] at h
            simp at h
            obtain ⟨hs, hevs⟩ := h
            subst hs
            subst hevs
            refine Or.inr ⟨rfl, idx, info, rfl, rfl, hdup, rfl, rfl, rfl, rfl,
              Or.inl ⟨hth, by simp [witUpdated], rfl⟩⟩
          · rw [if_neg (by simpa [witUpdated] using hth)] at h
            simp at h
            obtain ⟨hs, hevs⟩ := h
            subst hs
            subst hevs
            refine Or.inr ⟨rfl, idx, info, rfl, rfl, hdup, rfl, rfl, rfl, rfl,
              Or.inr ⟨Nat.le_of_not_lt hth, by simp [witUpdated],
                by simp [witUpdated]⟩⟩
        · simp at h
  · simp at h
    obtain ⟨hs, hevs⟩ := h
    subst hs
    subst hevs
    exact Or.inl ⟨rfl, rfl, rfl⟩

theorem step_release_cases (env : Env) (s : State) (caller : Address) (ck : Bool)
    (body : Release) (s' : State) (evs : List Event)
    (h : step env s (Call.release caller ck body) = some (s', evs)) :
    (ck = true ∧ s' = s ∧ evs = [] ∧
      ∃ remote, ensure_local_or_remote env.params body.amount.denomination = .ok remote) ∨
    (ck = false ∧ ∃ remote idx,
      ensure_local_or_remote env.params body.amount.denomination = .ok remote ∧
      findWitnessIndex env.apk env.params.witnesses caller = some idx ∧
      body.id = s.nextInSeq ∧
      hasElem ((alGet s.inSlots body.id).getD emptyIncoming).witnesses (idx % 65536) = false ∧
      s'.nextOutSeq = s.nextOutSeq ∧
      s'.outSlots = s.outSlots ∧
      (((releaseBucket s body).witnesses.length + 1 < env.params.threshold ∧
        s'.nextInSeq = s.nextInSeq ∧
        s'.balances = s.balances ∧
        s'.inSlots = alPut s.inSlots body.id (relUpdated s body idx) ∧
        evs = []) ∨
       (env.params.threshold ≤ (releaseBucket s body).witnesses.length + 1 ∧
        s'.nextInSeq = s.nextInSeq + 1 ∧
        s'.inSlots = alDel s.inSlots body.id ∧
        evs = [.release body.id body.target body.amount] ∧
        transfer
          (if remote.isSome then mint s.balances ADDRESS_LOCKED_FUNDS body.amount
           else s.balances)
          ADDRESS_LOCKED_FUNDS body.target body.amount = some s'.balances))) := by
  rw [step] at h
  simp only [tx_release] at h
  rcases hens : ensure_local_or_remote env.params body.amount.denomination with e | remote <;>
    simp only [hens] at h
  · simp at h
  · rcases ck with _ | _
    · simp only [Bool.false_eq_true, if_false] at h
      rcases hf : findWitnessIndex env.apk env.params.witnesses caller with _ | idx <;>
        simp only [hf] at h
      · simp at h
      · by_cases hid : body.id = s.nextInSeq
        · rw [if_neg (fun hne => hne hid)] at h
          rcases hdup :
              hasElem ((alGet s.inSlots body.id).getD emptyIncoming).witnesses (idx % 65536)
            with _ | _ <;> simp only [hdup, Bool.false_eq_true, if_false] at h
          · by_cases hth :
              (releaseBucket s body).witnesses.length + 1 < env.params.threshold
            · rw [if_pos (by simpa [releaseBucket] using hth)] at h
              simp at h
              obtain ⟨hs, hevs⟩ := h
              subst hs
              subst hevs
              refine Or.inr ⟨rfl, remote, idx, rfl, rfl, hid, hdup, rfl, rfl,
                Or.inl ⟨hth, rfl, rfl, ?_, rfl⟩⟩
              simp [relUpdated, releaseBucket]
            · rw [if_neg (by simpa [releaseBucket] using hth)] at h
              rcases htr : transfer
                  (if remote.isSome then mint s.balances ADDRESS_LOCKED_FUNDS body.amount
                   else s.balances)
                  ADDRESS_LOCKED_FUNDS body.target body.amount with _ | bal2 <;>
                simp only [htr] at h
              · simp at h
              · simp at h
                obtain ⟨hs, hevs⟩ := h
                subst hs
                subst hevs
                refine Or.inr ⟨rfl, remote, idx, rfl, rfl, hid, hdup, rfl, rfl,
                  Or.inr ⟨Nat.le_of_not_lt hth, by simp [hid], rfl, rfl, by rw [htr]⟩⟩
          · simp at h
        · rw [if_pos hid] at h
          simp at h
    · simp at h
      obtain ⟨hs, hevs⟩ := h
      subst hs
      subst hevs
      exact Or.inl ⟨rfl, rfl, rfl, remote, rfl⟩

/-! ### Run induction engine -/

theorem run_inv (env : Env) (P : State → List Event → Prop) (G : Call → Prop)
    (hstep : ∀ s acc c s' evs, G c → P s acc → step env s c = some (s', evs) →
      P s' (acc ++ evs)) :
    ∀ (cs : List Call), (∀ c ∈ cs, G c) →
      ∀ s acc t evs, P s acc → run env s cs = some (t, evs) → P t (acc ++ evs) := by
  intro cs
  induction cs with
  | nil =>
    intro _ s acc t evs hP h
    rw [run] at h
    injection h with h2
    injection h2 with hs hevs
    subst hs
    subst hevs
    simpa using hP
  | cons c cs ih =>
    intro hG s acc t evs hP h
    rw [run] at h
    rcases hst : step env s c with _ | p <;> rw [hst] at h
    · simp at h
    · obtain ⟨s1, evs1⟩ := p
      simp only [] at h
      rcases hrest : run env s1 cs with _ | q <;> simp only [hrest] at h
      · simp at h
      · obtain ⟨t1, evs2⟩ := q
        simp at h
        obtain ⟨ht, hevs⟩ := h
        subst ht
        subst hevs
        have hP1 := hstep s acc c s1 evs1 (hG c (List.mem_cons_self _ _)) hP hst
        have hP2 := ih (fun x hx => hG x (List.mem_cons_of_mem _ hx)) s1 (acc ++ evs1) t1 evs2
          hP1 hrest
        simpa [List.append_assoc] using hP2

/-! ### Claim C6 -/

/-- Claim C6: a repeated Witness or Release call by a witness whose index
is already recorded in the relevant slot (outgoing slot witness list for
Witness, slot-level witness list for Release), not in check mode, fails
with `AlreadySubmittedSignature` and leaves the raw state and event list
untouched. -/
theorem c6_duplicate_submission_rejected (env : Env) (caller : Address) (s : State) :
    (∀ (wbody : Witness) (idx : Nat) (info : WitnessSignatures),
      findWitnessIndex env.apk env.params.witnesses caller = some idx →
      alGet s.outSlots wbody.id = some info →
      hasElem info.witnesses idx = true →
      tx_witness env caller false wbody s =
        ⟨.error .AlreadySubmittedSignature, s, []⟩) ∧
    (∀ (rbody : Release) (idx : Nat) (remote : Option RemoteDenomination),
      ensure_local_or_remote env.params rbody.amount.denomination = .ok remote →
      findWitnessIndex env.apk env.params.witnesses caller = some idx →
      rbody.id = s.nextInSeq →
      hasElem ((alGet s.inSlots rbody.id).getD emptyIncoming).witnesses (idx % 65536) = true →
      tx_release env caller false rbody s =
        ⟨.error .AlreadySubmittedSignature, s, []⟩) := by
  constructor
  · intro wbody idx info hf hsl hdup
    rw [tx_witness]
    simp [hf, hsl, hdup]
  · intro rbody idx remote hens hf hid hdup
    rw [tx_release]
    simp only [hens, Bool.false_eq_true, if_false, hf]
    rw [if_neg (fun hne => hne hid)]
    simp [hdup]

/-- Witness for C6: in `sDup`, witness 10 (index 0) has already signed
outgoing slot 0 and incoming slot 0; repeating either call is rejected
with no state change. -/
theorem c6_witness :
    tx_witness envA 10 false ⟨0, 901⟩ sDup =
      ⟨.error .AlreadySubmittedSignature, sDup, []⟩ ∧
    tx_release envA 10 false ⟨0, 5, ⟨5, 1⟩⟩ sDup =
      ⟨.error .AlreadySubmittedSignature, sDup, []⟩ :=
  ⟨(c6_duplicate_submission_rejected envA 10 sDup).1 ⟨0, 901⟩ 0
      ⟨0, .lock ⟨33, ⟨5, 1⟩⟩, [0], [900]⟩ rfl rfl rfl,
    (c6_duplicate_submission_rejected envA 10 sDup).2 ⟨0, 5, ⟨5, 1⟩⟩ 0 none rfl rfl rfl rfl⟩

/-! ### Claim C7 -/

/-- Claim C7 counterexample: a check-only Witness or Release call by a
caller that is not a witness returns `Ok`, not `NotAuthorized` — the
handlers return before the authority check when in check mode. -/
theorem c7_counterexample :
    findWitnessIndex envA.apk envA.params.witnesses 5 = none ∧
    (tx_witness envA 5 true ⟨0, 0⟩ (genesis [])).res = .ok () ∧
    (tx_release envA 5 true ⟨0, 3, ⟨10, 1⟩⟩ (genesis [])).res = .ok () :=
  ⟨rfl, rfl, rfl⟩

/-- Claim C7 amended: in check-only mode the handlers do not validate
authority. A check-mode Witness call returns success with no state change
for any caller; a check-mode Release call validates only the denomination
and, when it is supported, returns success for any caller. -/
theorem c7_check_mode_no_authority (env : Env) (caller : Address) (s : State)
    (hun : findWitnessIndex env.apk env.params.witnesses caller = none) :
    (∀ wbody : Witness, tx_witness env caller true wbody s = ⟨.ok (), s, []⟩) ∧
    (∀ (rbody : Release) (remote : Option RemoteDenomination),
      ensure_local_or_remote env.params rbody.amount.denomination = .ok remote →
      tx_release env caller true rbody s = ⟨.ok (), s, []⟩) := by
  refine ⟨fun wbody => ?_, fun rbody remote hens => ?_⟩
  · rw [tx_witness]
    simp
  · rw [tx_release]
    simp [hens]

/-- Witness for C7's amended statement at a concrete unauthorized caller. -/
theorem c7_witness :
    tx_witness envA 5 true ⟨0, 0⟩ (genesis []) = ⟨.ok (), genesis [], []⟩ ∧
    tx_release envA 5 true ⟨0, 3, ⟨10, 1⟩⟩ (genesis []) = ⟨.ok (), genesis [], []⟩ :=
  ⟨(c7_check_mode_no_authority envA 5 (genesis []) rfl).1 ⟨0, 0⟩,
    (c7_check_mode_no_authority envA 5 (genesis []) rfl).2 ⟨0, 3, ⟨10, 1⟩⟩ none rfl⟩

/-! ### Claim C8 -/

/-- Claim C8 counterexample: `validate_basic` accepts parameters whose
threshold is zero (and in particular not a positive integer bounded by
the witness count) — it never inspects the threshold. -/
theorem c8_counterexample :
    validate_basic ⟨[], 0, [], []⟩ = .ok () ∧
    ¬ (0 < (Parameters.mk [] 0 [] []).threshold ∧
        (Parameters.mk [] 0 [] []).threshold ≤ (Parameters.mk [] 0 [] []).witnesses.length) :=
  ⟨rfl, by decide⟩

/-- Claim C8 amended: `validate_basic` accepts exactly the parameters with
at most 65535 witnesses and disjoint local/remote denomination sets; the
threshold is not constrained at all. -/
theorem c8_validate_basic_charact (p : Parameters) :
    validate_basic p = .ok () ↔
      (p.witnesses.length ≤ 65535 ∧
        ∀ rd ∈ p.remote_denominations, rd.1 ∉ p.local_denominations) := by
  rw [validate_basic]
  by_cases h1 : p.witnesses.length > 65535
  · rw [if_pos h1]
    exact ⟨fun hc => absurd hc (by simp), fun hc => absurd hc.1 (by omega)⟩
  · by_cases h2 : p.remote_denominations.any (fun rd => hasElem p.local_denominations rd.1)
    · rw [if_neg h1, if_pos h2]
      refine ⟨fun hc => absurd hc (by simp), fun hc => ?_⟩
      obtain ⟨rd, hmem, hhas⟩ := List.any_eq_true.mp h2
      exact absurd ((hasElem_iff_mem _ _).mp hhas) (hc.2 rd hmem)
    · rw [if_neg h1, if_neg h2]
      refine ⟨fun _ => ⟨by omega, fun rd hmem hloc => ?_⟩, fun _ => rfl⟩
      exact h2 (List.any_eq_true.mpr ⟨rd, hmem, (hasElem_iff_mem _ _).mpr hloc⟩)

/-- Witness for C8's amended statement on concrete parameters. -/
theorem c8_witness : validate_basic ⟨[3], 5, [1], [(2, 9)]⟩ = .ok () :=
  (c8_validate_basic_charact ⟨[3], 5, [1], [(2, 9)]⟩).mpr ⟨by decide, by decide⟩

/-! ### Claim C3 -/

/-- How one committed transaction can change `NEXT_IN_SEQUENCE`: either it
is untouched, or the transaction was a finalizing Release at exactly the
current value, which it incremented by one while deleting the slot. -/
theorem step_nextInSeq (env : Env) (s : State) (c : Call) (s' : State) (evs : List Event)
    (h : step env s c = some (s', evs)) :
    s'.nextInSeq = s.nextInSeq ∨
    (∃ caller body, c = Call.release caller false body ∧ body.id = s.nextInSeq ∧
      s'.nextInSeq = s.nextInSeq + 1 ∧
      env.params.threshold ≤ (releaseBucket s body).witnesses.length + 1 ∧
      alGet s'.inSlots body.id = none) := by
  cases c with
  | lock caller ck b =>
    rcases step_lock_cases env s caller ck b s' evs h with
      ⟨_, hs, _⟩ | ⟨_, remote, bal1, _, _, _, _, hnis, _, _, _⟩
    · left; rw [hs]
    · left; exact hnis
  | witness caller ck b =>
    rcases step_witness_cases env s caller ck b s' evs h with
      ⟨_, hs, _⟩ | ⟨_, idx, info, _, _, _, _, _, hnis, _, _⟩
    · left; rw [hs]
    · left; exact hnis
  | release caller ck b =>
    rcases step_release_cases env s caller ck b s' evs h with
      ⟨_, hs, _, _⟩ | ⟨hck, remote, idx, hens, hf, hid, hdup, _, _, hfin⟩
    · left; rw [hs]
    · rcases hfin with ⟨_, hnis, _, _, _⟩ | ⟨hth, hnis, hslots, _, _⟩
      · left; exact hnis
      · right
        refine ⟨caller, b, by rw [hck], hid, hnis, hth, ?_⟩
        rw [hslots]
        exact alGet_alDel_same _ _

/-- Claim C3 counterexample: a Release call in check-only mode whose id
differs from the current `NEXT_IN_SEQUENCE` succeeds instead of failing
with `InvalidSequenceNumber` (the sequence check is skipped in check
mode). -/
theorem c3_counterexample :
    (1 : Nat) ≠ (genesis []).nextInSeq ∧
    (tx_release envA 99 true ⟨1, 5, ⟨10, 1⟩⟩ (genesis [])).res = .ok () :=
  ⟨by decide, rfl⟩

/-- Claim C3 amended: over any sequence of successful calls
`NEXT_IN_SEQUENCE` is monotonically non-decreasing; it changes only in a
non-check Release whose id equals the current value and whose bucket
reaches the threshold, and then by exactly one; and a Release call that
is not check-only, by an authorized witness, with a supported
denomination and an id different from the current `NEXT_IN_SEQUENCE`
fails with `InvalidSequenceNumber` (check-only calls skip the check, and
unauthorized or unsupported-denomination calls fail earlier with other
errors). -/
theorem c3_next_in_sequence (env : Env) :
    (∀ (s : State) (cs : List Call) (t : State) (evs : List Event),
      run env s cs = some (t, evs) → s.nextInSeq ≤ t.nextInSeq) ∧
    (∀ (s : State) (c : Call) (s' : State) (evs : List Event),
      step env s c = some (s', evs) →
      s'.nextInSeq = s.nextInSeq ∨
      (∃ caller body, c = Call.release caller false body ∧ body.id = s.nextInSeq ∧
        s'.nextInSeq = s.nextInSeq + 1 ∧
        env.params.threshold ≤ (releaseBucket s body).witnesses.length + 1 ∧
        alGet s'.inSlots body.id = none)) ∧
    (∀ (s : State) (caller : Address) (body : Release) (idx : Nat)
        (remote : Option RemoteDenomination),
      ensure_local_or_remote env.params body.amount.denomination = .ok remote →
      findWitnessIndex env.apk env.params.witnesses caller = some idx →
      body.id ≠ s.nextInSeq →
      (tx_release env caller false body s).res = .error .InvalidSequenceNumber) := by
  refine ⟨fun s cs t evs hrun => ?_, fun s c s' evs h => step_nextInSeq env s c s' evs h,
    fun s caller body idx remote hens hf hid => ?_⟩
  · have := run_inv env (fun st _ => s.nextInSeq ≤ st.nextInSeq) (fun _ => True)
      (fun sa acc c sa' evs' _ hP hst => by
        rcases step_nextInSeq env sa c sa' evs' hst with heq | ⟨_, _, _, _, heq, _, _⟩ <;>
          omega)
      cs (fun _ _ => trivial) s [] t evs (le_refl _) hrun
    exact this
  · rw [tx_release]
    simp only [hens, Bool.false_eq_true, if_false, hf]
    rw [if_pos hid]

/-- Witness for C3's amended statement: a non-finalizing run, a
finalizing step, and a concrete wrong-id failure. -/
theorem c3_witness :
    (genesis []).nextInSeq ≤
      ((run envA (genesis []) [Call.release 10 false ⟨0, 5, ⟨10, 2⟩⟩]).getD
        (genesis [], [])).1.nextInSeq ∧
    (tx_release envA 10 false ⟨1, 5, ⟨10, 1⟩⟩ (genesis [])).res =
      .error .InvalidSequenceNumber :=
  ⟨(c3_next_in_sequence envA).1 (genesis []) [Call.release 10 false ⟨0, 5, ⟨10, 2⟩⟩]
      ((run envA (genesis []) [Call.release 10 false ⟨0, 5, ⟨10, 2⟩⟩]).getD
        (genesis [], [])).1
      ((run envA (genesis []) [Call.release 10 false ⟨0, 5, ⟨10, 2⟩⟩]).getD
        (genesis [], [])).2 rfl,
    (c3_next_in_sequence envA).2.2 (genesis []) 10 ⟨1, 5, ⟨10, 1⟩⟩ 0 none rfl rfl
      (by decide)⟩

/-! ### Claim C9 -/

/-- Claim C9: in every state reachable from genesis, each outgoing slot
has as many witness indices as signatures (both lists grow in lockstep
from empty), and every `WitnessesSigned` event carries as many signatures
as witness indices. -/
theorem c9_witness_signature_lengths (env : Env) (b0 : Balances) (cs : List Call)
    (t : State) (evs : List Event)
    (hrun : run env (genesis b0) cs = some (t, evs)) :
    (∀ id info, alGet t.outSlots id = some info →
      info.witnesses.length = info.signatures.length) ∧
    (∀ info, Event.witnessesSigned info ∈ evs →
      info.witnesses.length = info.signatures.length) := by
  have key := run_inv env
    (fun st acc =>
      (∀ id info, alGet st.outSlots id = some info →
        info.witnesses.length = info.signatures.length) ∧
      (∀ info, Event.witnessesSigned info ∈ acc →
        info.witnesses.length = info.signatures.length))
    (fun _ => True) ?_ cs (fun _ _ => trivial) (genesis b0) [] t evs ?_ hrun
  · simpa using key
  · intro s acc c s' evs' _ hP hst
    cases c with
    | lock caller ck b =>
      rcases step_lock_cases env s caller ck b s' evs' hst with
        ⟨_, hs, hevs⟩ | ⟨_, remote, bal1, _, _, hevs, _, _, _, houts, _⟩
      · subst hs; subst hevs; simpa using hP
      · constructor
        · intro id info hsl
          rw [houts] at hsl
          by_cases hid : s.nextOutSeq = id
          · subst hid
            rw [alGet_alPut_same] at hsl
            injection hsl with h2
            subst h2
            rfl
          · rw [alGet_alPut_ne _ _ _ _ hid] at hsl
            exact hP.1 id info hsl
        · intro info hmem
          rcases List.mem_append.mp hmem with hm | hm
          · exact hP.2 info hm
          · rw [hevs] at hm
            simp at hm
    | witness caller ck b =>
      rcases step_witness_cases env s caller ck b s' evs' hst with
        ⟨_, hs, hevs⟩ | ⟨_, idx, info, hf, hsl0, _, _, _, _, _, hbr⟩
      · subst hs; subst hevs; simpa using hP
      · have hlen : (witUpdated info idx b.signature).witnesses.length =
            (witUpdated info idx b.signature).signatures.length := by
          simp [witUpdated, hP.1 b.id info hsl0]
        rcases hbr with ⟨_, houts, hevs⟩ | ⟨_, houts, hevs⟩
        · constructor
          · intro id info1 hsl
            rw [houts] at hsl
            by_cases hid : b.id = id
            · subst hid
              rw [alGet_alPut_same] at hsl
              injection hsl with h2
              subst h2
              exact hlen
            · rw [alGet_alPut_ne _ _ _ _ hid] at hsl
              exact hP.1 id info1 hsl
          · intro info1 hmem
            rcases List.mem_append.mp hmem with hm | hm
            · exact hP.2 info1 hm
            · rw [hevs] at hm
              simp at hm
        · constructor
          · intro id info1 hsl
            rw [houts] at hsl
            by_cases hid : b.id = id
            · subst hid
              rw [alGet_alDel_same] at hsl
              exact absurd hsl (by simp)
            · rw [alGet_alDel_ne _ _ _ hid] at hsl
              exact hP.1 id info1 hsl
          · intro info1 hmem
            rcases List.mem_append.mp hmem with hm | hm
            · exact hP.2 info1 hm
            · rw [hevs] at hm
              simp at hm
              subst hm
              exact hlen
    | release caller ck b =>
      rcases step_release_cases env s caller ck b s' evs' hst with
        ⟨_, hs, hevs, _⟩ | ⟨_, remote, idx, _, _, _, _, _, houts, hbr⟩
      · subst hs; subst hevs; simpa using hP
      · constructor
        · intro id info hsl
          rw [houts] at hsl
          exact hP.1 id info hsl
        · intro info hmem
          rcases List.mem_append.mp hmem with hm | hm
          · exact hP.2 info hm
          · rcases hbr with ⟨_, _, _, _, hevs⟩ | ⟨_, _, _, hevs, _⟩ <;> rw [hevs] at hm <;>
              simp at hm
  · constructor
    · intro id info h
      simp [genesis, alGet] at h
    · intro info h
      simp at h

/-- Witness for C9 on a concrete lock-then-witness run. -/
theorem c9_witness :
    (WitnessSignatures.mk 0 (.lock ⟨33, ⟨1000, 1⟩⟩) [0] [900]).witnesses.length =
      (WitnessSignatures.mk 0 (.lock ⟨33, ⟨1000, 1⟩⟩) [0] [900]).signatures.length :=
  (c9_witness_signature_lengths envA [((5, 1), 1000000)]
      [Call.lock 5 false ⟨33, ⟨1000, 1⟩⟩, Call.witness 10 false ⟨0, 900⟩]
      ((run envA (genesis [((5, 1), 1000000)])
        [Call.lock 5 false ⟨33, ⟨1000, 1⟩⟩, Call.witness 10 false ⟨0, 900⟩]).getD
        (genesis [], [])).1
      ((run envA (genesis [((5, 1), 1000000)])
        [Call.lock 5 false ⟨33, ⟨1000, 1⟩⟩, Call.witness 10 false ⟨0, 900⟩]).getD
        (genesis [], [])).2 rfl).1 0
    (WitnessSignatures.mk 0 (.lock ⟨33, ⟨1000, 1⟩⟩) [0] [900]) rfl

/-! ### Claim C5 -/

theorem wsCount_append (a b : List Event) (id : Nat) :
    wsCount (a ++ b) id = wsCount a id + wsCount b id := by
  rw [wsCount, wsCount, wsCount, List.filter_append, List.length_append]

theorem wsCount_nil (id : Nat) : wsCount [] id = 0 := rfl

theorem wsCount_lock (i : Nat) (o : Address) (tg : RemoteAddress) (a : BaseUnits) (id : Nat) :
    wsCount [Event.lock i o tg a] id = 0 := rfl

theorem wsCount_release (i : Nat) (tg : Address) (a : BaseUnits) (id : Nat) :
    wsCount [Event.release i tg a] id = 0 := rfl

theorem wsCount_ws (info : WitnessSignatures) (id : Nat) :
    wsCount [Event.witnessesSigned info] id = if info.id = id then 1 else 0 := by
  rw [wsCount]
  by_cases h : info.id = id <;> simp [List.filter, h]

/-- The per-state invariant behind claim C5, tracking allocated ids,
their slots and the `WitnessesSigned` events emitted so far. -/
def outSlotInv (env : Env) (st : State) (acc : List Event) : Prop :=
  ∀ id : Nat,
    (id < st.nextOutSeq →
      ((∃ info, alGet st.outSlots id = some info ∧ info.id = id ∧
        info.witnesses.length < env.params.threshold ∧ wsCount acc id = 0) ∨
       (alGet st.outSlots id = none ∧ wsCount acc id = 1))) ∧
    (st.nextOutSeq ≤ id → alGet st.outSlots id = none ∧ wsCount acc id = 0)

theorem outSlotInv_step (env : Env) (hth : 0 < env.params.threshold)
    (s : State) (acc : List Event) (c : Call) (s' : State) (evs : List Event)
    (hP : outSlotInv env s acc) (hst : step env s c = some (s', evs)) :
    outSlotInv env s' (acc ++ evs) := by
  cases c with
  | lock caller ck b =>
    rcases step_lock_cases env s caller ck b s' evs hst with
      ⟨_, hs, hevs⟩ | ⟨_, remote, bal1, _, _, hevs, hnos, _, _, houts, _⟩
    · subst hs; subst hevs; simpa [wsCount_append] using hP
    · intro id
      rw [hevs, wsCount_append, wsCount_lock, Nat.add_zero] at *
      constructor
      · intro hlt
        rw [hnos] at hlt
        by_cases hid : id < s.nextOutSeq
        · rcases (hP id).1 hid with ⟨info, hsl, hiid, hlen, hcnt⟩ | ⟨hsl, hcnt⟩
          · exact Or.inl ⟨info, by
              rw [houts, alGet_alPut_ne _ _ _ _ (by omega)]; exact hsl, hiid, hlen, hcnt⟩
          · exact Or.inr ⟨by
              rw [houts, alGet_alPut_ne _ _ _ _ (by omega)]; exact hsl, hcnt⟩
        · have hide : id = s.nextOutSeq := by omega
          refine Or.inl ⟨WitnessSignatures.new s.nextOutSeq (.lock b), ?_, hide.symm, ?_, ?_⟩
          · rw [houts, hide, alGet_alPut_same]
          · simpa [WitnessSignatures.new] using hth
          · exact ((hP id).2 (by omega)).2
      · intro hge
        rw [hnos] at hge
        have h1 := (hP id).2 (by omega)
        exact ⟨by rw [houts, alGet_alPut_ne _ _ _ _ (by omega)]; exact h1.1, h1.2⟩
  | witness caller ck b =>
    rcases step_witness_cases env s caller ck b s' evs hst with
      ⟨_, hs, hevs⟩ | ⟨_, idx, info, hf, hsl0, _, _, hnos, _, _, hbr⟩
    · subst hs; subst hevs; simpa [wsCount_append] using hP
    · have hblt : b.id < s.nextOutSeq := by
        by_contra hc
        have := ((hP b.id).2 (Nat.le_of_not_lt hc)).1
        rw [this] at hsl0
        exact absurd hsl0 (by simp)
      rcases (hP b.id).1 hblt with ⟨info0, hsl0', hiid, hlen, hcnt⟩ | ⟨hnone, _⟩
      swap
      · rw [hnone] at hsl0; exact absurd hsl0 (by simp)
      rw [hsl0'] at hsl0
      injection hsl0 with hinfo
      subst hinfo
      rcases hbr with ⟨hlt2, houts, hevs⟩ | ⟨hge2, houts, hevs⟩
      · intro id
        rw [hevs, wsCount_append, wsCount_nil, Nat.add_zero] at *
        constructor
        · intro hlt
          rw [hnos] at hlt
          by_cases hid : b.id = id
          · subst hid
            exact Or.inl ⟨witUpdated info0 idx b.signature,
              by rw [houts, alGet_alPut_same], by simpa [witUpdated] using hiid, hlt2, hcnt⟩
          · rcases (hP id).1 hlt with ⟨info1, hsl1, h1, h2, h3⟩ | ⟨hsl1, h3⟩
            · exact Or.inl ⟨info1, by rw [houts, alGet_alPut_ne _ _ _ _ hid]; exact hsl1,
                h1, h2, h3⟩
            · exact Or.inr ⟨by rw [houts, alGet_alPut_ne _ _ _ _ hid]; exact hsl1, h3⟩
        · intro hge
          rw [hnos] at hge
          have h1 := (hP id).2 hge
          have hid : b.id ≠ id := by omega
          exact ⟨by rw [houts, alGet_alPut_ne _ _ _ _ hid]; exact h1.1, h1.2⟩
      · intro id
        have hwsid : (witUpdated info0 idx b.signature).id = b.id := by
          simpa [witUpdated] using hiid
        rw [hevs, wsCount_append, wsCount_ws] at *
        constructor
        · intro hlt
          rw [hnos] at hlt
          by_cases hid : b.id = id
          · subst hid
            rw [hwsid]
            simp only [if_pos rfl]
            exact Or.inr ⟨by rw [houts, alGet_alDel_same], by simp [hcnt]⟩
          · rw [hwsid, if_neg hid, Nat.add_zero]
            rcases (hP id).1 hlt with ⟨info1, hsl1, h1, h2, h3⟩ | ⟨hsl1, h3⟩
            · exact Or.inl ⟨info1, by rw [houts, alGet_alDel_ne _ _ _ hid]; exact hsl1,
                h1, h2, h3⟩
            · exact Or.inr ⟨by rw [houts, alGet_alDel_ne _ _ _ hid]; exact hsl1, h3⟩
        · intro hge
          rw [hnos] at hge
          have h1 := (hP id).2 hge
          have hid : b.id ≠ id := by omega
          rw [hwsid, if_neg hid, Nat.add_zero]
          exact ⟨by rw [houts, alGet_alDel_ne _ _ _ hid]; exact h1.1, h1.2⟩
  | release caller ck b =>
    rcases step_release_cases env s caller ck b s' evs hst with
      ⟨_, hs, hevs, _⟩ | ⟨_, remote, idx, _, _, _, _, hnos, houts, hbr⟩
    · subst hs; subst hevs; simpa [wsCount_append] using hP
    · have hevs0 : ∀ id, wsCount evs id = 0 := by
        intro id
        rcases hbr with ⟨_, _, _, _, hevs⟩ | ⟨_, _, _, hevs, _⟩ <;> rw [hevs]
        · exact wsCount_nil id
        · exact wsCount_release _ _ _ id
      intro id
      rw [wsCount_append, hevs0, Nat.add_zero, hnos, houts]
      exact hP id

/-- Claim C5: for every outgoing id allocated by a successful Lock, at
any later committed boundary either the slot is still present with fewer
than `threshold` witnesses (and no `WitnessesSigned` event with that id
was emitted), or the slot is gone and exactly one `WitnessesSigned` event
with that id was emitted.  Requires the spec-level parameter invariant
`threshold ≥ 1`. -/
theorem c5_outgoing_slot_terminal (env : Env) (b0 : Balances) (cs : List Call)
    (t : State) (evs : List Event) (hth : 0 < env.params.threshold)
    (hrun : run env (genesis b0) cs = some (t, evs)) :
    ∀ id, id < t.nextOutSeq →
      ((∃ info, alGet t.outSlots id = some info ∧
        info.witnesses.length < env.params.threshold ∧ wsCount evs id = 0) ∨
       (alGet t.outSlots id = none ∧ wsCount evs id = 1)) := by
  have key := run_inv env (outSlotInv env) (fun _ => True)
    (fun s acc c s' evs' _ hP hst => outSlotInv_step env hth s acc c s' evs' hP hst)
    cs (fun _ _ => trivial) (genesis b0) [] t evs ?_ hrun
  · intro id hlt
    rcases (key id).1 hlt with ⟨info, h1, _, h2, h3⟩ | ⟨h1, h2⟩
    · exact Or.inl ⟨info, h1, h2, by simpa using h3⟩
    · exact Or.inr ⟨h1, by simpa using h2⟩
  · intro id
    exact ⟨fun hlt => absurd hlt (by simp [genesis]), fun _ => ⟨rfl, rfl⟩⟩

/-- Witness for C5 on a finalized outgoing slot: after lock and two
witness calls with threshold 2, slot 0 is gone and exactly one
`WitnessesSigned` event with id 0 exists. -/
theorem c5_witness :
    (0 : Nat) <
      ((run envA (genesis [((5, 1), 1000000)])
        [Call.lock 5 false ⟨33, ⟨1000, 1⟩⟩, Call.witness 10 false ⟨0, 900⟩,
          Call.witness 11 false ⟨0, 901⟩]).getD (genesis [], [])).1.nextOutSeq ∧
    ((∃ info, alGet ((run envA (genesis [((5, 1), 1000000)])
        [Call.lock 5 false ⟨33, ⟨1000, 1⟩⟩, Call.witness 10 false ⟨0, 900⟩,
          Call.witness 11 false ⟨0, 901⟩]).getD (genesis [], [])).1.outSlots 0 = some info ∧
        info.witnesses.length < envA.params.threshold ∧
        wsCount ((run envA (genesis [((5, 1), 1000000)])
          [Call.lock 5 false ⟨33, ⟨1000, 1⟩⟩, Call.witness 10 false ⟨0, 900⟩,
            Call.witness 11 false ⟨0, 901⟩]).getD (genesis [], [])).2 0 = 0) ∨
     (alGet ((run envA (genesis [((5, 1), 1000000)])
        [Call.lock 5 false ⟨33, ⟨1000, 1⟩⟩, Call.witness 10 false ⟨0, 900⟩,
          Call.witness 11 false ⟨0, 901⟩]).getD (genesis [], [])).1.outSlots 0 = none ∧
      wsCount ((run envA (genesis [((5, 1), 1000000)])
        [Call.lock 5 false ⟨33, ⟨1000, 1⟩⟩, Call.witness 10 false ⟨0, 900⟩,
          Call.witness 11 false ⟨0, 901⟩]).getD (genesis [], [])).2 0 = 1)) :=
  ⟨by decide,
    c5_outgoing_slot_terminal envA [((5, 1), 1000000)]
      [Call.lock 5 false ⟨33, ⟨1000, 1⟩⟩, Call.witness 10 false ⟨0, 900⟩,
        Call.witness 11 false ⟨0, 901⟩]
      ((run envA (genesis [((5, 1), 1000000)])
        [Call.lock 5 false ⟨33, ⟨1000, 1⟩⟩, Call.witness 10 false ⟨0, 900⟩,
          Call.witness 11 false ⟨0, 901⟩]).getD (genesis [], [])).1
      ((run envA (genesis [((5, 1), 1000000)])
        [Call.lock 5 false ⟨33, ⟨1000, 1⟩⟩, Call.witness 10 false ⟨0, 900⟩,
          Call.witness 11 false ⟨0, 901⟩]).getD (genesis [], [])).2
      (by decide) rfl 0 (by decide)⟩

/-! ### Claim C4 -/

theorem joinWits_cons (p : Operation × WitnessSignatures)
    (l : List (Operation × WitnessSignatures)) :
    joinWits (p :: l) = p.2.witnesses ++ joinWits l := by
  simp [joinWits]

theorem joinWits_alPut_perm (i : Nat) (o : Operation) (x : Nat) :
    ∀ (ops : List (Operation × WitnessSignatures)) (k : Operation)
      (b' : WitnessSignatures),
      b'.witnesses =
        ((alGet ops k).getD (WitnessSignatures.new i o)).witnesses ++ [x] →
      (joinWits (alPut ops k b')).Perm (joinWits ops ++ [x]) := by
  intro ops
  induction ops with
  | nil =>
    intro k b' hb
    simp only [alGet, alPut, Option.getD_none, WitnessSignatures.new] at hb ⊢
    rw [joinWits_cons]
    simp [joinWits, hb]
  | cons p rest ih =>
    intro k b' hb
    by_cases hp : p.1 = k
    · rw [alGet, if_pos hp, Option.getD_some] at hb
      rw [alPut, if_pos hp, joinWits_cons, joinWits_cons, hb]
      have h1 : p.2.witnesses ++ [x] ++ joinWits rest =
          p.2.witnesses ++ ([x] ++ joinWits rest) := by
        rw [List.append_assoc]
      have h2 : p.2.witnesses ++ joinWits rest ++ [x] =
          p.2.witnesses ++ (joinWits rest ++ [x]) := by
        rw [List.append_assoc]
      rw [h1, h2]
      exact List.Perm.append_left _ (List.perm_append_comm)
    · rw [alGet, if_neg hp] at hb
      rw [alPut, if_neg hp, joinWits_cons, joinWits_cons, List.append_assoc]
      exact List.Perm.append_left _ (ih k b' hb)

/-- The per-state invariant behind claim C4. -/
def inSlotInv (st : State) : Prop :=
  ∀ id info, alGet st.inSlots id = some info →
    info.witnesses.Perm (joinWits info.ops) ∧ info.witnesses.Nodup

theorem inSlotInv_step (env : Env) (s : State) (c : Call) (s' : State) (evs : List Event)
    (hP : inSlotInv s) (hst : step env s c = some (s', evs)) : inSlotInv s' := by
  have hbase : ∀ id0, (((alGet s.inSlots id0).getD emptyIncoming).witnesses.Perm
      (joinWits ((alGet s.inSlots id0).getD emptyIncoming).ops)) ∧
      ((alGet s.inSlots id0).getD emptyIncoming).witnesses.Nodup := by
    intro id0
    rcases hg : alGet s.inSlots id0 with _ | info0
    · simp [emptyIncoming, joinWits]
    · simpa using hP id0 info0 hg
  cases c with
  | lock caller ck b =>
    rcases step_lock_cases env s caller ck b s' evs hst with
      ⟨_, hs, _⟩ | ⟨_, remote, bal1, _, _, _, _, _, hins, _, _⟩
    · subst hs; exact hP
    · intro id info hsl
      rw [hins] at hsl
      exact hP id info hsl
  | witness caller ck b =>
    rcases step_witness_cases env s caller ck b s' evs hst with
      ⟨_, hs, _⟩ | ⟨_, idx, info, _, _, _, _, _, _, hins, _⟩
    · subst hs; exact hP
    · intro id info1 hsl
      rw [hins] at hsl
      exact hP id info1 hsl
  | release caller ck b =>
    rcases step_release_cases env s caller ck b s' evs hst with
      ⟨_, hs, _, _⟩ | ⟨_, remote, idx, _, _, _, hdup, _, _, hbr⟩
    · subst hs; exact hP
    · rcases hbr with ⟨_, _, _, hins, _⟩ | ⟨_, _, hins, _, _⟩
      · intro id info1 hsl
        rw [hins] at hsl
        by_cases hid : b.id = id
        · subst hid
          rw [alGet_alPut_same] at hsl
          injection hsl with hinfo
          subst hinfo
          have hperm0 := (hbase b.id).1
          have hnd0 := (hbase b.id).2
          have hnotmem : (idx % 65536) ∉
              ((alGet s.inSlots b.id).getD emptyIncoming).witnesses := by
            intro hmem
            rw [← hasElem_iff_mem _ _] at hmem
            rw [hdup] at hmem
            exact absurd hmem (by simp)
          constructor
          · have hput := joinWits_alPut_perm b.id (Operation.release b) (idx % 65536)
              ((alGet s.inSlots b.id).getD emptyIncoming).ops (Operation.release b)
              { releaseBucket s b with
                witnesses := (releaseBucket s b).witnesses ++ [idx % 65536] }
              (by rw [releaseBucket])
            show (((alGet s.inSlots b.id).getD emptyIncoming).witnesses ++
                [idx % 65536]).Perm
              (joinWits (alPut ((alGet s.inSlots b.id).getD emptyIncoming).ops
                (Operation.release b)
                { releaseBucket s b with
                  witnesses := (releaseBucket s b).witnesses ++ [idx % 65536] }))
            refine List.Perm.trans ?_ hput.symm
            exact List.Perm.append_right _ hperm0
          · show (((alGet s.inSlots b.id).getD emptyIncoming).witnesses ++
              [idx % 65536]).Nodup
            rw [List.nodup_append]
            exact ⟨hnd0, List.nodup_singleton _, by
              intro a ha hx
              simp at hx
              subst hx
              exact hnotmem ha⟩
        · rw [alGet_alPut_ne _ _ _ _ hid] at hsl
          exact hP id info1 hsl
      · intro id info1 hsl
        rw [hins] at hsl
        by_cases hid : b.id = id
        · subst hid
          rw [alGet_alDel_same] at hsl
          exact absurd hsl (by simp)
        · rw [alGet_alDel_ne _ _ _ hid] at hsl
          exact hP id info1 hsl

/-- Claim C4: in every state reachable from genesis, the slot-level
witness list of each incoming slot is (as a multiset) exactly the
concatenation of its buckets' witness lists, and it has no duplicates —
so each witness index appears in at most one bucket, at most once. -/
theorem c4_slot_witness_union (env : Env) (b0 : Balances) (cs : List Call)
    (t : State) (evs : List Event)
    (hrun : run env (genesis b0) cs = some (t, evs)) :
    ∀ id info, alGet t.inSlots id = some info →
      info.witnesses.Perm (joinWits info.ops) ∧ info.witnesses.Nodup := by
  have key := run_inv env (fun st _ => inSlotInv st) (fun _ => True)
    (fun s acc c s' evs' _ hP hst => inSlotInv_step env s c s' evs' hP hst)
    cs (fun _ _ => trivial) (genesis b0) [] t evs ?_ hrun
  · exact key
  · intro id info h
    simp [genesis, alGet] at h

/-- Witness for C4 on a one-release incoming slot. -/
theorem c4_witness :
    (soloSlot ⟨0, 5, ⟨10, 2⟩⟩ [0]).witnesses.Perm
      (joinWits (soloSlot ⟨0, 5, ⟨10, 2⟩⟩ [0]).ops) ∧
    (soloSlot ⟨0, 5, ⟨10, 2⟩⟩ [0]).witnesses.Nodup :=
  c4_slot_witness_union envA [] [Call.release 10 false ⟨0, 5, ⟨10, 2⟩⟩]
    ((run envA (genesis []) [Call.release 10 false ⟨0, 5, ⟨10, 2⟩⟩]).getD
      (genesis [], [])).1
    ((run envA (genesis []) [Call.release 10 false ⟨0, 5, ⟨10, 2⟩⟩]).getD
      (genesis [], [])).2 rfl 0 (soloSlot ⟨0, 5, ⟨10, 2⟩⟩ [0]) rfl

/-! ### Claim C10 -/

/-- The property of a stored witness index: it is in range and is the
resolution of some caller address. -/
def goodIdx (env : Env) (i : Nat) : Prop :=
  i < env.params.witnesses.length ∧
  ∃ a, findWitnessIndex env.apk env.params.witnesses a = some i

/-- The per-state invariant behind claim C10: every index stored in any
slot (outgoing, incoming slot-level, or incoming bucket) is good. -/
def idxInv (env : Env) (st : State) : Prop :=
  (∀ id info, alGet st.outSlots id = some info →
    ∀ i ∈ info.witnesses, goodIdx env i) ∧
  (∀ id info, alGet st.inSlots id = some info →
    (∀ i ∈ info.witnesses, goodIdx env i) ∧
    (∀ p ∈ info.ops, ∀ i ∈ p.2.witnesses, goodIdx env i))

theorem idxInv_step (env : Env) (hw : env.params.witnesses.length ≤ 65535)
    (s : State) (c : Call) (s' : State) (evs : List Event)
    (hP : idxInv env s) (hst : step env s c = some (s', evs)) : idxInv env s' := by
  have hmod : ∀ caller idx,
      findWitnessIndex env.apk env.params.witnesses caller = some idx →
      idx % 65536 = idx ∧ goodIdx env idx := by
    intro caller idx hf
    have hlt := findWitnessIndex_lt env.apk env.params.witnesses caller idx hf
    exact ⟨Nat.mod_eq_of_lt (by omega), hlt, caller, hf⟩
  cases c with
  | lock caller ck b =>
    rcases step_lock_cases env s caller ck b s' evs hst with
      ⟨_, hs, _⟩ | ⟨_, remote, bal1, _, _, _, _, _, hins, houts, _⟩
    · subst hs; exact hP
    · constructor
      · intro id info hsl
        rw [houts] at hsl
        by_cases hid : s.nextOutSeq = id
        · subst hid
          rw [alGet_alPut_same] at hsl
          injection hsl with hinfo
          subst hinfo
          intro i hi
          simp [WitnessSignatures.new] at hi
        · rw [alGet_alPut_ne _ _ _ _ hid] at hsl
          exact hP.1 id info hsl
      · intro id info hsl
        rw [hins] at hsl
        exact hP.2 id info hsl
  | witness caller ck b =>
    rcases step_witness_cases env s caller ck b s' evs hst with
      ⟨_, hs, _⟩ | ⟨_, idx, info, hf, hsl0, _, _, _, _, hins, hbr⟩
    · subst hs; exact hP
    · have hidx := hmod caller idx hf
      have hupd : ∀ i ∈ (witUpdated info idx b.signature).witnesses, goodIdx env i := by
        intro i hi
        rw [witUpdated] at hi
        simp only [List.mem_append, List.mem_singleton] at hi
        rcases hi with hi | hi
        · exact hP.1 b.id info hsl0 i hi
        · subst hi
          rw [hidx.1]
          exact hidx.2
      rcases hbr with ⟨_, houts, _⟩ | ⟨_, houts, _⟩
      · constructor
        · intro id info1 hsl
          rw [houts] at hsl
          by_cases hid : b.id = id
          · subst hid
            rw [alGet_alPut_same] at hsl
            injection hsl with hinfo
            subst hinfo
            exact hupd
          · rw [alGet_alPut_ne _ _ _ _ hid] at hsl
            exact hP.1 id info1 hsl
        · intro id info1 hsl
          rw [hins] at hsl
          exact hP.2 id info1 hsl
      · constructor
        · intro id info1 hsl
          rw [houts] at hsl
          by_cases hid : b.id = id
          · subst hid
            rw [alGet_alDel_same] at hsl
            exact absurd hsl (by simp)
          · rw [alGet_alDel_ne _ _ _ hid] at hsl
            exact hP.1 id info1 hsl
        · intro id info1 hsl
          rw [hins] at hsl
          exact hP.2 id info1 hsl
  | release caller ck b =>
    rcases step_release_cases env s caller ck b s' evs hst with
      ⟨_, hs, _, _⟩ | ⟨_, remote, idx, _, hf, _, _, _, houts, hbr⟩
    · subst hs; exact hP
    · have hidx := hmod caller idx hf
      have hbaseSlot : (∀ i ∈ ((alGet s.inSlots b.id).getD emptyIncoming).witnesses,
          goodIdx env i) ∧
          (∀ p ∈ ((alGet s.inSlots b.id).getD emptyIncoming).ops,
            ∀ i ∈ p.2.witnesses, goodIdx env i) := by
        rcases hg : alGet s.inSlots b.id with _ | info0
        · simp [emptyIncoming]
        · simpa using hP.2 b.id info0 hg
      rcases hbr with ⟨_, _, _, hins, _⟩ | ⟨_, _, hins, _, _⟩
      · constructor
        · intro id info1 hsl
          rw [houts] at hsl
          exact hP.1 id info1 hsl
        · intro id info1 hsl
          rw [hins] at hsl
          by_cases hid : b.id = id
          · subst hid
            rw [alGet_alPut_same] at hsl
            injection hsl with hinfo
            subst hinfo
            constructor
            · show ∀ i ∈ ((alGet s.inSlots b.id).getD emptyIncoming).witnesses ++
                [idx % 65536], goodIdx env i
              intro i hi
              simp only [List.mem_append, List.mem_singleton] at hi
              rcases hi with hi | hi
              · exact hbaseSlot.1 i hi
              · subst hi
                rw [hidx.1]
                exact hidx.2
            · show ∀ p ∈ alPut ((alGet s.inSlots b.id).getD emptyIncoming).ops
                (Operation.release b)
                { releaseBucket s b with
                  witnesses := (releaseBucket s b).witnesses ++ [idx % 65536] },
                ∀ i ∈ p.2.witnesses, goodIdx env i
              intro p hp i hi
              rcases mem_alPut _ _ _ _ hp with hp1 | hp1
              · exact hbaseSlot.2 p hp1 i hi
              · subst hp1
                simp only [List.mem_append, List.mem_singleton] at hi
                rcases hi with hi | hi
                · have : ∀ j ∈ (releaseBucket s b).witnesses, goodIdx env j := by
                    rw [releaseBucket]
                    rcases hg : alGet ((alGet s.inSlots b.id).getD emptyIncoming).ops
                        (Operation.release b) with _ | b0
                    · simp [WitnessSignatures.new]
                    · rw [Option.getD_some]
                      exact hbaseSlot.2 (Operation.release b, b0) (alGet_mem _ _ _ hg)
                  exact this i hi
                · subst hi
                  rw [hidx.1]
                  exact hidx.2
          · rw [alGet_alPut_ne _ _ _ _ hid] at hsl
            exact hP.2 id info1 hsl
      · constructor
        · intro id info1 hsl
          rw [houts] at hsl
          exact hP.1 id info1 hsl
        · intro id info1 hsl
          rw [hins] at hsl
          by_cases hid : b.id = id
          · subst hid
            rw [alGet_alDel_same] at hsl
            exact absurd hsl (by simp)
          · rw [alGet_alDel_ne _ _ _ hid] at hsl
            exact hP.2 id info1 hsl

/-- Claim C10: when the parameter validation bound (at most 65535
witnesses) holds, the `as u16` casts in the Witness and Release handlers
never truncate: every witness index stored in any slot of a reachable
state is below the witness count and is the ordinal position found for
some caller address. -/
theorem c10_index_no_truncation (env : Env) (b0 : Balances) (cs : List Call)
    (t : State) (evs : List Event)
    (hw : env.params.witnesses.length ≤ 65535)
    (hrun : run env (genesis b0) cs = some (t, evs)) :
    (∀ id info, alGet t.outSlots id = some info →
      ∀ i ∈ info.witnesses, goodIdx env i) ∧
    (∀ id info, alGet t.inSlots id = some info →
      (∀ i ∈ info.witnesses, goodIdx env i) ∧
      (∀ p ∈ info.ops, ∀ i ∈ p.2.witnesses, goodIdx env i)) := by
  have key := run_inv env (fun st _ => idxInv env st) (fun _ => True)
    (fun s acc c s' evs' _ hP hst => idxInv_step env hw s c s' evs' hP hst)
    cs (fun _ _ => trivial) (genesis b0) [] t evs ?_ hrun
  · exact key
  · constructor
    · intro id info h
      simp [genesis, alGet] at h
    · intro id info h
      simp [genesis, alGet] at h

/-- Witness for C10 on a one-release incoming slot: the stored index 0
is below the witness count of `envA`. -/
theorem c10_witness :
    goodIdx envA 0 :=
  ((c10_index_no_truncation envA [] [Call.release 10 false ⟨0, 5, ⟨10, 2⟩⟩]
      ((run envA (genesis []) [Call.release 10 false ⟨0, 5, ⟨10, 2⟩⟩]).getD
        (genesis [], [])).1
      ((run envA (genesis []) [Call.release 10 false ⟨0, 5, ⟨10, 2⟩⟩]).getD
        (genesis [], [])).2 (by decide) rfl).2 0 (soloSlot ⟨0, 5, ⟨10, 2⟩⟩ [0]) rfl).1 0
    (by decide)

/-! ### Claim C1 -/

/-- Claim C1 counterexample: denomination 2 is remote in `envB` and the
custody address starts with balance 0, yet after one successful
(finalizing, threshold 1) Release whose target is the custody address
itself, the custody balance in denomination 2 is 5, not 0: the minted
amount is transferred back into custody. -/
theorem c1_counterexample :
    alGet envB.params.remote_denominations 2 = some 77 ∧
    hasElem envB.params.local_denominations 2 = false ∧
    getBal ([] : Balances) ADDRESS_LOCKED_FUNDS 2 = 0 ∧
    (run envB (genesis [])
        [Call.release 10 false ⟨0, ADDRESS_LOCKED_FUNDS, ⟨5, 2⟩⟩]).map
      (fun p => getBal p.1.balances ADDRESS_LOCKED_FUNDS 2) = some 5 ∧
    (5 : Nat) ≠ 0 :=
  ⟨rfl, rfl, rfl, rfl, by decide⟩

/-- If `d` is remote (and not local), the classification helper resolves
it to its remote counterpart. -/
theorem ensure_of_remote (params : Parameters) (d : Denomination) (r : RemoteDenomination)
    (hloc : hasElem params.local_denominations d = false)
    (hrem : alGet params.remote_denominations d = some r) :
    ensure_local_or_remote params d = .ok (some r) := by
  rw [ensure_local_or_remote, hloc]
  simp [hrem]

/-- One committed transaction keeps the custody balance of a remote
denomination `d` at zero, provided the transaction is not a Release
targeting the custody address. -/
theorem custodyZero_step (env : Env) (d : Denomination) (r : RemoteDenomination)
    (hloc : hasElem env.params.local_denominations d = false)
    (hrem : alGet env.params.remote_denominations d = some r)
    (s : State) (c : Call) (s' : State) (evs : List Event)
    (hG : ∀ caller ck body, c = Call.release caller ck body →
      body.target ≠ ADDRESS_LOCKED_FUNDS)
    (h0 : getBal s.balances ADDRESS_LOCKED_FUNDS d = 0)
    (hst : step env s c = some (s', evs)) :
    getBal s'.balances ADDRESS_LOCKED_FUNDS d = 0 := by
  have hens_d := ensure_of_remote env.params d r hloc hrem
  cases c with
  | lock caller ck b =>
    rcases step_lock_cases env s caller ck b s' evs hst with
      ⟨_, hs, _⟩ | ⟨_, remote, bal1, hens, htr, _, _, _, _, _, hbal⟩
    · subst hs; exact h0
    · obtain ⟨hle, hb1⟩ := transfer_eq_some _ _ _ _ _ htr
      subst hb1
      by_cases hd : b.amount.denomination = d
      · rcases hbal with ⟨hnone, hsb⟩ | ⟨r', hsome, hburn⟩
        · exfalso
          rw [hd, hens_d] at hens
          injection hens with h2
          rw [hnone] at h2
          exact absurd h2 (by simp)
        · obtain ⟨hle2, hchar⟩ := burn_eq_some _ _ _ _ hburn
          rw [hchar ADDRESS_LOCKED_FUNDS d, if_pos ⟨rfl, hd.symm⟩, getBal_moveBal,
            if_pos hd.symm, if_pos rfl]
          by_cases hc : caller = ADDRESS_LOCKED_FUNDS
          · rw [if_pos hc]
            rw [hc, hd, h0] at hle ⊢
            omega
          · rw [if_neg hc, hd, h0]
            omega
      · rcases hbal with ⟨_, hsb⟩ | ⟨r', _, hburn⟩
        · rw [hsb, getBal_moveBal, if_neg (fun hdd => hd hdd.symm)]
          exact h0
        · obtain ⟨_, hchar⟩ := burn_eq_some _ _ _ _ hburn
          rw [hchar ADDRESS_LOCKED_FUNDS d, if_neg (fun hc => hd hc.2.symm),
            getBal_moveBal, if_neg (fun hdd => hd hdd.symm)]
          exact h0
  | witness caller ck b =>
    rcases step_witness_cases env s caller ck b s' evs hst with
      ⟨_, hs, _⟩ | ⟨_, idx, info, _, _, _, hbal, _, _, _, _⟩
    · subst hs; exact h0
    · rw [hbal]; exact h0
  | release caller ck b =>
    rcases step_release_cases env s caller ck b s' evs hst with
      ⟨_, hs, _, _⟩ | ⟨hck, remote, idx, hens, _, _, _, _, _, hbr⟩
    · subst hs; exact h0
    · rcases hbr with ⟨_, _, hbal, _, _⟩ | ⟨_, _, _, _, htr⟩
      · rw [hbal]; exact h0
      · have htgt : b.target ≠ ADDRESS_LOCKED_FUNDS := hG caller ck b (by rw [hck])
        obtain ⟨hle, hb2⟩ := transfer_eq_some _ _ _ _ _ htr
        rw [hb2, getBal_moveBal]
        by_cases hd : b.amount.denomination = d
        · rw [if_pos hd.symm, if_neg (fun hx => htgt hx.symm), if_pos rfl]
          have hrm : remote = some r := by
            rw [hd, hens_d] at hens
            injection hens with h2
            exact h2.symm
          rw [hrm]
          simp only [Option.isSome_some, if_true]
          rw [getBal_mint, if_pos ⟨rfl, rfl⟩, hd, h0]
          omega
        · rw [if_neg (fun hdd => hd hdd.symm)]
          rcases remote with _ | r'
          · simp only [Option.isSome_none, Bool.false_eq_true, if_false]
            exact h0
          · simp only [Option.isSome_some, if_true]
            rw [getBal_mint, if_neg (fun hc => hd hc.2.symm)]
            exact h0

/-- Claim C1 amended: for a remote denomination `d` (not also local),
starting from a genesis where custody holds none of `d`, the custody
balance in `d` is zero at every committed boundary of every sequence of
successful calls in which no Release names the custody address as its
target.  (A finalizing Release with `target = custody` mints the amount
into custody and the self-transfer leaves it there — see the
counterexample.) -/
theorem c1_custody_remote_zero (env : Env) (d : Denomination) (r : RemoteDenomination)
    (b0 : Balances) (cs : List Call) (t : State) (evs : List Event)
    (hloc : hasElem env.params.local_denominations d = false)
    (hrem : alGet env.params.remote_denominations d = some r)
    (hG : ∀ c ∈ cs, ∀ caller ck body, c = Call.release caller ck body →
      body.target ≠ ADDRESS_LOCKED_FUNDS)
    (h0 : getBal b0 ADDRESS_LOCKED_FUNDS d = 0)
    (hrun : run env (genesis b0) cs = some (t, evs)) :
    getBal t.balances ADDRESS_LOCKED_FUNDS d = 0 :=
  run_inv env (fun st _ => getBal st.balances ADDRESS_LOCKED_FUNDS d = 0)
    (fun c => ∀ caller ck body, c = Call.release caller ck body →
      body.target ≠ ADDRESS_LOCKED_FUNDS)
    (fun s acc c s' evs' hGc hP hst =>
      custodyZero_step env d r hloc hrem s c s' evs' hGc hP hst)
    cs hG (genesis b0) [] t evs h0 hrun

/-- Witness for C1's amended statement: a finalizing Release of remote
denomination 2 to an ordinary target leaves custody at zero. -/
theorem c1_witness :
    getBal ((run envB (genesis [])
        [Call.release 10 false ⟨0, 5, ⟨5, 2⟩⟩]).getD
      (genesis [], [])).1.balances ADDRESS_LOCKED_FUNDS 2 = 0 :=
  c1_custody_remote_zero envB 2 77 [] [Call.release 10 false ⟨0, 5, ⟨5, 2⟩⟩]
    ((run envB (genesis []) [Call.release 10 false ⟨0, 5, ⟨5, 2⟩⟩]).getD
      (genesis [], [])).1
    ((run envB (genesis []) [Call.release 10 false ⟨0, 5, ⟨5, 2⟩⟩]).getD
      (genesis [], [])).2 rfl rfl
    (by
      intro c hc caller ck body heq
      simp only [List.mem_singleton] at hc
      subst hc
      injection heq with h1 h2 h3
      subst h3
      decide) rfl rfl

/-! ### Claim C2 -/

/-- Unfolding `run` over a successful head transaction. -/
theorem run_cons_ok (env : Env) (s : State) (c : Call) (cs : List Call)
    (s1 : State) (evs1 : List Event) (t2 : State) (evs2 : List Event)
    (h1 : step env s c = some (s1, evs1)) (h2 : run env s1 cs = some (t2, evs2)) :
    run env s (c :: cs) = some (t2, evs1 ++ evs2) := by
  rw [run, h1]
  show (match run env s1 cs with
        | none => none
        | some (t, evs') => some (t, evs1 ++ evs')) = some (t2, evs1 ++ evs2)
  rw [h2]

/-- A local denomination classifies as local. -/
theorem ensure_of_local (params : Parameters) (d : Denomination)
    (hl : hasElem params.local_denominations d = true) :
    ensure_local_or_remote params d = .ok none := by
  rw [ensure_local_or_remote, hl]
  simp

/-- Forward evaluation of a Lock of a local denomination with sufficient
caller balance. -/
theorem tx_lock_forward_local (env : Env) (caller : Address) (body : Lock) (s : State)
    (hl : hasElem env.params.local_denominations body.amount.denomination = true)
    (hbal : body.amount.amount ≤ getBal s.balances caller body.amount.denomination) :
    tx_lock env caller false body s =
      ⟨.ok s.nextOutSeq,
        { s with
          balances := moveBal s.balances caller ADDRESS_LOCKED_FUNDS body.amount
          nextOutSeq := s.nextOutSeq + 1
          outSlots := alPut s.outSlots s.nextOutSeq
            (WitnessSignatures.new s.nextOutSeq (.lock body)) },
        [.lock s.nextOutSeq caller body.target body.amount]⟩ := by
  rw [tx_lock, ensure_of_local env.params _ hl]
  simp only [Bool.false_eq_true, if_false]
  rw [transfer, if_pos hbal]
  simp

/-- Forward evaluation of a non-finalizing Release (bucket still below
threshold) of a local denomination. -/
theorem tx_release_forward_acc (env : Env) (caller : Address) (body : Release) (s : State)
    (idx : Nat)
    (hl : hasElem env.params.local_denominations body.amount.denomination = true)
    (hf : findWitnessIndex env.apk env.params.witnesses caller = some idx)
    (hid : body.id = s.nextInSeq)
    (hdup : hasElem ((alGet s.inSlots body.id).getD emptyIncoming).witnesses
      (idx % 65536) = false)
    (hth : (releaseBucket s body).witnesses.length + 1 < env.params.threshold) :
    tx_release env caller false body s =
      ⟨.ok (), { s with inSlots := alPut s.inSlots body.id (relUpdated s body idx) }, []⟩ := by
  rw [tx_release, ensure_of_local env.params _ hl]
  simp only [Bool.false_eq_true, if_false, hf]
  rw [if_neg (fun hne => hne hid)]
  simp only [hdup, Bool.false_eq_true, if_false]
  rw [if_pos (by simpa [releaseBucket] using hth)]
  simp [relUpdated, releaseBucket]

/-- Forward evaluation of a finalizing Release (bucket reaches threshold)
of a local denomination with sufficient custody balance. -/
theorem tx_release_forward_fin (env : Env) (caller : Address) (body : Release) (s : State)
    (idx : Nat)
    (hl : hasElem env.params.local_denominations body.amount.denomination = true)
    (hf : findWitnessIndex env.apk env.params.witnesses caller = some idx)
    (hid : body.id = s.nextInSeq)
    (hdup : hasElem ((alGet s.inSlots body.id).getD emptyIncoming).witnesses
      (idx % 65536) = false)
    (hth : env.params.threshold ≤ (releaseBucket s body).witnesses.length + 1)
    (hbal : body.amount.amount ≤
      getBal s.balances ADDRESS_LOCKED_FUNDS body.amount.denomination) :
    tx_release env caller false body s =
      ⟨.ok (),
        { s with
          inSlots := alDel s.inSlots body.id
          nextInSeq := body.id + 1
          balances := moveBal s.balances ADDRESS_LOCKED_FUNDS body.target body.amount },
        [.release body.id body.target body.amount]⟩ := by
  rw [tx_release, ensure_of_local env.params _ hl]
  simp only [Bool.false_eq_true, if_false, hf]
  rw [if_neg (fun hne => hne hid)]
  simp only [hdup, Bool.false_eq_true, if_false]
  rw [if_neg (by simpa [releaseBucket] using Nat.not_lt_of_le hth)]
  simp only [Option.isSome_none, Bool.false_eq_true, if_false]
  rw [transfer, if_pos (by simpa using hbal)]

/-- Repeatedly submitting the same Release body from distinct fresh
witnesses drives its single bucket to the threshold and finalizes: the
slot is deleted, the sequence number advances, and the amount moves from
custody to the target. -/
theorem releaseRun (env : Env) (body : Release)
    (hl : hasElem env.params.local_denominations body.amount.denomination = true) :
    ∀ (ws : List (Address × Nat)) (js : List Nat) (t : State),
      ws ≠ [] →
      js.length + ws.length = env.params.threshold →
      (js ++ ws.map (fun p : Address × Nat => p.2 % 65536)).Nodup →
      (∀ p ∈ ws, findWitnessIndex env.apk env.params.witnesses p.1 = some p.2) →
      t.nextInSeq = body.id →
      ((alGet t.inSlots body.id = none ∧ js = []) ∨
        alGet t.inSlots body.id = some (soloSlot body js)) →
      body.amount.amount ≤ getBal t.balances ADDRESS_LOCKED_FUNDS body.amount.denomination →
      run env t (ws.map (fun p => Call.release p.1 false body)) =
        some ({ t with
                inSlots := alDel t.inSlots body.id
                nextInSeq := body.id + 1
                balances := moveBal t.balances ADDRESS_LOCKED_FUNDS body.target
                  body.amount },
              [Event.release body.id body.target body.amount]) := by
  intro ws
  induction ws with
  | nil => intro js t hne; exact absurd rfl hne
  | cons p rest ih =>
    intro js t _ hlen hnd hws hexp hslot hbal
    have hf := hws p (List.mem_cons_self _ _)
    have hwits : ((alGet t.inSlots body.id).getD emptyIncoming).witnesses = js := by
      rcases hslot with ⟨hnone, hjs⟩ | hsome
      · rw [hnone, hjs]
        rfl
      · rw [hsome]
        rfl
    have hxjs : (p.2 % 65536) ∉ js := by
      have := List.nodup_append.mp hnd
      exact fun hmem => this.2.2 hmem (by simp)
    have hdup : hasElem ((alGet t.inSlots body.id).getD emptyIncoming).witnesses
        (p.2 % 65536) = false := by
      rw [hwits]
      rcases hhe : hasElem js (p.2 % 65536) with _ | _
      · rfl
      · exact absurd ((hasElem_iff_mem _ _).mp hhe) hxjs
    have hbw : (releaseBucket t body).witnesses = js := by
      rcases hslot with ⟨hnone, hjs⟩ | hsome
      · rw [releaseBucket, hnone, hjs]
        rfl
      · rw [releaseBucket, hsome]
        simp [soloSlot, alGet]
    have hrel : relUpdated t body p.2 = soloSlot body (js ++ [p.2 % 65536]) := by
      rcases hslot with ⟨hnone, hjs⟩ | hsome
      · rw [relUpdated, releaseBucket, hnone, hjs]
        rfl
      · rw [relUpdated, releaseBucket, hsome]
        simp [soloSlot, alGet, alPut, emptyIncoming, WitnessSignatures.new]
    rcases hrest : rest with _ | ⟨q, rest'⟩
    · -- last call: finalizes
      subst hrest
      have hth : env.params.threshold ≤ (releaseBucket t body).witnesses.length + 1 := by
        rw [hbw]
        simp at hlen
        omega
      have hstep := tx_release_forward_fin env p.1 body t p.2 hl hf hexp.symm hdup hth hbal
      have hss : step env t (Call.release p.1 false body) =
          some ({ t with
                  inSlots := alDel t.inSlots body.id
                  nextInSeq := body.id + 1
                  balances := moveBal t.balances ADDRESS_LOCKED_FUNDS body.target
                    body.amount },
            [Event.release body.id body.target body.amount]) := by
        rw [step, hstep]
      rw [List.map_cons, List.map_nil,
        run_cons_ok env t _ [] _ _ _ _ hss (by rw [run])]
      simp
    · -- intermediate call: accumulates
      have hth : (releaseBucket t body).witnesses.length + 1 < env.params.threshold := by
        rw [hbw]
        subst hrest
        simp at hlen
        omega
      have hstep := tx_release_forward_acc env p.1 body t p.2 hl hf hexp.symm hdup hth
      subst hrest
      have hss : step env t (Call.release p.1 false body) =
          some ({ t with inSlots := alPut t.inSlots body.id (relUpdated t body p.2) },
            []) := by
        rw [step, hstep]
      have hihres := ih (js ++ [p.2 % 65536])
        { t with inSlots := alPut t.inSlots body.id (relUpdated t body p.2) }
        (by simp)
        (by simp at hlen ⊢; omega)
        (by
          rw [List.append_assoc]
          simpa using hnd)
        (fun q hq => hws q (List.mem_cons_of_mem _ hq))
        (by simpa using hexp)
        (by
          right
          show alGet (alPut t.inSlots body.id (relUpdated t body p.2)) body.id =
            some (soloSlot body (js ++ [p.2 % 65536]))
          rw [alGet_alPut_same, hrel])
        (by simpa using hbal)
      rw [List.map_cons, run_cons_ok env t _ _ _ _ _ _ hss hihres]
      simp [alDel_alPut]

/-- Claim C2: a user with sufficient balance locks `A` of a local
denomination, and then a threshold of distinct witnesses successfully
submit the matching Release for the expected incoming id with the user
as target; afterwards the user's balance and the custody balance in that
denomination are exactly their pre-Lock values. -/
theorem c2_roundtrip_restores_balances (env : Env) (s : State) (u : Address)
    (tgt : RemoteAddress) (amt : BaseUnits) (ws : List (Address × Nat))
    (hl : hasElem env.params.local_denominations amt.denomination = true)
    (hbal : amt.amount ≤ getBal s.balances u amt.denomination)
    (hslot : alGet s.inSlots s.nextInSeq = none)
    (hws : ∀ p ∈ ws, findWitnessIndex env.apk env.params.witnesses p.1 = some p.2)
    (hnd : (ws.map (fun p : Address × Nat => p.2 % 65536)).Nodup)
    (hlen : ws.length = env.params.threshold)
    (hth : 0 < env.params.threshold) :
    ∃ t evs,
      run env s (Call.lock u false ⟨tgt, amt⟩ ::
        ws.map (fun p => Call.release p.1 false ⟨s.nextInSeq, u, amt⟩)) = some (t, evs) ∧
      getBal t.balances u amt.denomination = getBal s.balances u amt.denomination ∧
      getBal t.balances ADDRESS_LOCKED_FUNDS amt.denomination =
        getBal s.balances ADDRESS_LOCKED_FUNDS amt.denomination := by
  have hlock := tx_lock_forward_local env u ⟨tgt, amt⟩ s hl hbal
  have hs1bal : amt.amount ≤
      getBal (moveBal s.balances u ADDRESS_LOCKED_FUNDS amt) ADDRESS_LOCKED_FUNDS
        amt.denomination := by
    rw [getBal_moveBal, if_pos rfl, if_pos rfl]
    by_cases hu : u = ADDRESS_LOCKED_FUNDS
    · rw [if_pos hu, hu] at *
      omega
    · rw [if_neg hu]
      omega
  have hrel := releaseRun env ⟨s.nextInSeq, u, amt⟩ hl ws []
    { s with
      balances := moveBal s.balances u ADDRESS_LOCKED_FUNDS amt
      nextOutSeq := s.nextOutSeq + 1
      outSlots := alPut s.outSlots s.nextOutSeq
        (WitnessSignatures.new s.nextOutSeq (.lock ⟨tgt, amt⟩)) }
    (by
      intro hc
      rw [hc] at hlen
      simp at hlen
      omega)
    (by simpa using hlen)
    (by simpa using hnd)
    hws
    (by simp)
    (by
      left
      exact ⟨hslot, rfl⟩)
    (by simpa using hs1bal)
  have hssl : step env s (Call.lock u false ⟨tgt, amt⟩) =
      some ({ s with
              balances := moveBal s.balances u ADDRESS_LOCKED_FUNDS amt
              nextOutSeq := s.nextOutSeq + 1
              outSlots := alPut s.outSlots s.nextOutSeq
                (WitnessSignatures.new s.nextOutSeq (.lock ⟨tgt, amt⟩)) },
        [.lock s.nextOutSeq u tgt amt]) := by
    rw [step, hlock]
  have hrt1 : getBal (moveBal (moveBal s.balances u ADDRESS_LOCKED_FUNDS amt)
      ADDRESS_LOCKED_FUNDS u amt) u amt.denomination =
      getBal s.balances u amt.denomination := by
    simp only [getBal_moveBal]
    by_cases hu : u = ADDRESS_LOCKED_FUNDS
    · rw [hu] at hbal ⊢
      simp
      omega
    · have hcu : ¬ (ADDRESS_LOCKED_FUNDS = u) := fun h => hu h.symm
      simp [hu, hcu]
      omega
  have hrt2 : getBal (moveBal (moveBal s.balances u ADDRESS_LOCKED_FUNDS amt)
      ADDRESS_LOCKED_FUNDS u amt) ADDRESS_LOCKED_FUNDS amt.denomination =
      getBal s.balances ADDRESS_LOCKED_FUNDS amt.denomination := by
    simp only [getBal_moveBal]
    by_cases hu : u = ADDRESS_LOCKED_FUNDS
    · rw [hu] at hbal ⊢
      simp
      omega
    · have hcu : ¬ (ADDRESS_LOCKED_FUNDS = u) := fun h => hu h.symm
      simp [hu, hcu]
  exact ⟨_, _, run_cons_ok env s _ _ _ _ _ _ hssl hrel, hrt1, hrt2⟩

/-- Witness for C2: Alice locks 1000 of local denomination 1, then both
witnesses of `envA` (threshold 2) release it back; her balance and the
custody balance return to their initial values. -/
theorem c2_witness :
    ∃ t evs,
      run envA (genesis [((5, 1), 1000000)])
        (Call.lock 5 false ⟨33, ⟨1000, 1⟩⟩ ::
          [(10, 0), (11, 1)].map (fun p =>
            Call.release p.1 false ⟨(genesis [((5, 1), 1000000)]).nextInSeq, 5,
              ⟨1000, 1⟩⟩)) = some (t, evs) ∧
      getBal t.balances 5 1 = getBal (genesis [((5, 1), 1000000)]).balances 5 1 ∧
      getBal t.balances ADDRESS_LOCKED_FUNDS 1 =
        getBal (genesis [((5, 1), 1000000)]).balances ADDRESS_LOCKED_FUNDS 1 :=
  c2_roundtrip_restores_balances envA (genesis [((5, 1), 1000000)]) 5 33 ⟨1000, 1⟩
    [(10, 0), (11, 1)] rfl (by decide) rfl (by decide) (by decide) rfl (by decide)

end OasisBridge
